import Mathlib

/-!
Shallow embedding of the OBJ ingestion pipeline of `src/yocto/yocto_obj.h`
(`yo_load_obj`, its helpers, and the binary loader `yo_load_objbin`).

Modelling conventions:
* C `float` values only flow through the pipeline (they are parsed, stored
  and copied, never computed with), so they are embedded as `Rat`.
* The embedding starts at the record level: `yo__splitws` tokenization and
  `atof`/`atoi` literal parsing are I/O-side and already applied, so a
  record carries its parsed numeric payload, and an OBJ vertex token
  carries the list of `atoi` values of its `/`-separated fields
  (a missing field is an absent entry).
* C `assert` failures abort the program; they are embedded as `Option`
  failure (`none`) of the whole load, matching "no partial scene".
* Out-of-range `std::vector` reads (undefined behaviour in C++) are
  embedded as reads with a default value; the theorems below only rely on
  in-range reads.
* File handling (`fopen`, `mtllib` side files) is external I/O; a
  successful material-library scan is embedded as a record carrying the
  scanned materials.
-/

/-- Two-component float vector `ym_vec2f`. -/
abbrev ym_vec2f := Rat × Rat

/-- Three-component float vector `ym_vec3f`. -/
abbrev ym_vec3f := Rat × Rat × Rat

/-- Affine 3x4 matrix `ym_affine3f`, kept as its 12 scalar entries. -/
abbrev ym_affine3f := List Rat

/-- Identity affine matrix `ym_identity_affine3f`. -/
def ym_identity_affine3f : ym_affine3f :=
  [1, 0, 0, 0, 1, 0, 0, 0, 1, 0, 0, 0]

/-- Element type constants from the `yo_etype` enum. -/
def yo_etype_null : Int := 0

/-- Point primitive type. -/
def yo_etype_point : Int := 1

/-- Line primitive type. -/
def yo_etype_line : Int := 2

/-- Triangle primitive type. -/
def yo_etype_triangle : Int := 3

/-- Polyline (variable length) primitive type. -/
def yo_etype_polyline : Int := 12

/-- Polygon (variable length) primitive type. -/
def yo_etype_polygon : Int := 13

/-- OBJ vertex reference quintuplet with its flattened-array index `vid`
(struct `yo__vert`). -/
structure yo__vert where
  pos : Int
  texcoord : Int
  norm : Int
  color : Int
  radius : Int
  vid : Int
deriving DecidableEq

/-- OBJ vertex data pools (struct `yo__vertdata`). -/
structure yo__vertdata where
  pos : List ym_vec3f
  texcoord : List ym_vec2f
  norm : List ym_vec3f
  color : List ym_vec3f
  radius : List Rat
deriving DecidableEq

/-- Empty vertex data. -/
def yo__vertdata_empty : yo__vertdata :=
  { pos := [], texcoord := [], norm := [], color := [], radius := [] }

/-- OBJ element data (struct `yo__elemdata`). -/
structure yo__elemdata where
  etype : Int
  elem : List Int
deriving DecidableEq

/-- Number of buckets of the vertex hash table (`yo__vhash_size`). -/
def yo__vhash_size : Int := 1048576

/-- Vertex hash table (struct `yo__vhash`); the bucket array is embedded as
a total function on bucket indices. -/
structure yo__vhash where
  nverts : Nat
  v : Int → List yo__vert

/-- Empty vertex hash table. -/
def yo__vhash_empty : yo__vhash :=
  { nverts := 0, v := fun _ => [] }

/-- Geometric shape (struct `yo_shape`). -/
structure yo_shape where
  name : String
  groupname : String
  matname : String
  matid : Int
  nelems : Int
  elem : List Int
  etype : Int
  nverts : Int
  pos : List ym_vec3f
  norm : List ym_vec3f
  texcoord : List ym_vec2f
  color : List ym_vec3f
  radius : List Rat
  xformed : Bool
  xform : ym_affine3f
deriving DecidableEq

/-- Material (struct `yo_material`). -/
structure yo_material where
  name : String
  illum : Int := 0
  ke : ym_vec3f := (0, 0, 0)
  ka : ym_vec3f := (0, 0, 0)
  kd : ym_vec3f := (0, 0, 0)
  ks : ym_vec3f := (0, 0, 0)
  kr : ym_vec3f := (0, 0, 0)
  kt : ym_vec3f := (0, 0, 0)
  ns : Rat := 1
  ior : Rat := 1
  op : Rat := 1
  ke_txt : String := ""
  ka_txt : String := ""
  kd_txt : String := ""
  ks_txt : String := ""
  kr_txt : String := ""
  kt_txt : String := ""
  ns_txt : String := ""
  op_txt : String := ""
  ior_txt : String := ""
  bump_txt : String := ""
  disp_txt : String := ""
  ke_txtid : Int := -1
  ka_txtid : Int := -1
  kd_txtid : Int := -1
  ks_txtid : Int := -1
  kr_txtid : Int := -1
  kt_txtid : Int := -1
  ns_txtid : Int := -1
  op_txtid : Int := -1
  ior_txtid : Int := -1
  bump_txtid : Int := -1
  disp_txtid : Int := -1
deriving DecidableEq

/-- Texture (struct `yo_texture`); pixel data is loaded externally. -/
structure yo_texture where
  path : String
  width : Int := 0
  height : Int := 0
  ncomp : Int := 0
  pixels : List Rat := []
deriving DecidableEq

/-- Camera (struct `yo_camera`). -/
structure yo_camera where
  name : String
  from_ : ym_vec3f
  to_ : ym_vec3f
  up : ym_vec3f
  width : Rat
  height : Rat
  aperture : Rat
deriving DecidableEq

/-- Environment map (struct `yo_env`). -/
structure yo_env where
  name : String
  matname : String
  matid : Int := -1
  from_ : ym_vec3f
  to_ : ym_vec3f
  up : ym_vec3f
deriving DecidableEq

/-- Scene (struct `yo_scene`). -/
structure yo_scene where
  shapes : List yo_shape
  materials : List yo_material
  textures : List yo_texture
  cameras : List yo_camera
  envs : List yo_env
deriving DecidableEq

/-- Case-insensitive C-string comparison `yo__stricmp`, on the character
lists of the two strings.  Returns the difference at the first position
where the lowercased characters differ (`0` means equal). -/
def yo__stricmp : List Char → List Char → Int
  | [], [] => 0
  | [], c2 :: _ => 0 - (c2.toLower.toNat : Int)
  | c1 :: _, [] => (c1.toLower.toNat : Int) - 0
  | c1 :: s1, c2 :: s2 =>
    if c1.toLower = c2.toLower then yo__stricmp s1 s2
    else (c1.toLower.toNat : Int) - (c2.toLower.toNat : Int)

/-- Material-id resolution loop of `yo__add_shape` (`for (int i = 0; i <
materials.size() && shape->matid < 0; i++) ...`), with `i` the index of
the head of the remaining list: index of the first material whose name
matches `matname` case-insensitively. -/
def yo__find_matid_loop (matname : String) : List yo_material → Nat → Int
  | [], _ => -1
  | mat :: rest, i =>
    if yo__stricmp matname.data mat.name.data = 0 then (i : Int)
    else yo__find_matid_loop matname rest (i + 1)

/-- Material-id resolution of `yo__add_shape`: index of the first material
whose name matches `matname` case-insensitively, `-1` if none. -/
def yo__find_matid (materials : List yo_material) (matname : String) : Int :=
  yo__find_matid_loop matname materials 0

/-- Resolution of one raw index field of an OBJ vertex token against the
length of the corresponding attribute pool (`yo__parse_vert` body):
absent gives the sentinel `-1`, a negative value is relative to the pool
length, otherwise the 1-based value is shifted down. -/
def yo__resolve1 (len : Int) : Option Int → Int
  | none => -1
  | some k => if k < 0 then len + k else k - 1

/-- An OBJ vertex token after `atoi`: the values of its `/`-separated
fields (field `i` absent when the list is shorter). -/
abbrev yo__tok := List Int

/-- Resolution part of `yo__parse_vert`: the reference quintuplet of a
token against the current pool lengths, with `vid` not yet assigned. -/
def yo__resolve_tok (obj_vert : yo__vertdata) (tok : yo__tok) : yo__vert :=
  { pos := yo__resolve1 (obj_vert.pos.length : Int) (tok.get? 0)
    texcoord := yo__resolve1 (obj_vert.texcoord.length : Int) (tok.get? 1)
    norm := yo__resolve1 (obj_vert.norm.length : Int) (tok.get? 2)
    color := yo__resolve1 (obj_vert.color.length : Int) (tok.get? 3)
    radius := yo__resolve1 (obj_vert.radius.length : Int) (tok.get? 4)
    vid := 0 }

/-- Exact quintuplet bucket match used by the `yo__parse_vert` lookup loop. -/
def yo__vert_match (v w : yo__vert) : Bool :=
  v.pos == w.pos && v.texcoord == w.texcoord && v.norm == w.norm &&
    v.color == w.color && v.radius == w.radius

/-- Parses an OBJ vertex token and deduplicates it through the vertex hash
(`yo__parse_vert`): resolve the five indices, look the quintuplet up in
the bucket selected by `pos % yo__vhash_size` (C truncated `%`), return
the stored vertex on a hit, otherwise insert with the next `vid`. -/
def yo__parse_vert (tok : yo__tok) (vhash : yo__vhash) (obj_vert : yo__vertdata) :
    yo__vert × yo__vhash :=
  let v := yo__resolve_tok obj_vert tok
  let hidx := Int.tmod v.pos yo__vhash_size
  match (vhash.v hidx).find? (fun w => yo__vert_match v w) with
  | some w => (w, vhash)
  | none =>
    let v' := { v with vid := (vhash.nverts : Int) }
    (v', { nverts := vhash.nverts + 1
           v := fun k => if k = hidx then vhash.v hidx ++ [v'] else vhash.v k })

/-- Adds a unique vertex to a parsed shape (`yo__add_shape_vert`): skip if
the `vid` is already materialized (judged against the length of the
position array), otherwise append every present attribute. -/
def yo__add_shape_vert (vert : yo__vertdata) (v : yo__vert) (obj_vert : yo__vertdata) :
    yo__vertdata :=
  if v.vid < (vert.pos.length : Int) then vert
  else
    { pos := if 0 ≤ v.pos then vert.pos ++ [obj_vert.pos.getD v.pos.toNat (0, 0, 0)] else vert.pos
      norm := if 0 ≤ v.norm then vert.norm ++ [obj_vert.norm.getD v.norm.toNat (0, 0, 0)] else vert.norm
      texcoord := if 0 ≤ v.texcoord then
          vert.texcoord ++ [obj_vert.texcoord.getD v.texcoord.toNat (0, 0)] else vert.texcoord
      color := if 0 ≤ v.color then vert.color ++ [obj_vert.color.getD v.color.toNat (0, 0, 0)] else vert.color
      radius := if 0 ≤ v.radius then vert.radius ++ [obj_vert.radius.getD v.radius.toNat 0] else vert.radius }

/-- Fuel-indexed run-length scan; the fuel only serves structural
termination and never runs out when it starts at the buffer length. -/
def yo__run_lengths_fuel : Nat → List Int → List Int
  | _, [] => []
  | 0, _ :: _ => []
  | fuel + 1, c :: rest => c :: yo__run_lengths_fuel fuel (rest.drop c.toNat)

/-- Run-length scan of a variable-type element buffer (the `for (f = 0;
f < nelems;) { nf = elemd[f]; ...; f += nf + 1; }` loop of
`yo__add_shape`): the sequence of run counts read at the run boundaries.
Counts produced by the loader are nonnegative, so `toNat` is exact there. -/
def yo__run_lengths (l : List Int) : List Int :=
  yo__run_lengths_fuel l.length l

/-- Fuel-indexed fixed-stride re-emission; the fuel only serves structural
termination and never runs out when it starts at the buffer length. -/
def yo__compact_fuel (m : Nat) : Nat → List Int → List Int
  | _, [] => []
  | 0, _ :: _ => []
  | fuel + 1, _ :: rest => rest.take m ++ yo__compact_fuel m fuel (rest.drop m)

/-- Fixed-stride re-emission of a uniform variable-type element buffer
(the `memcpy` loop of `yo__add_shape` for `minf == maxf`): drop each
leading count and keep the `m` following indices. -/
def yo__compact (m : Nat) (l : List Int) : List Int :=
  yo__compact_fuel m l.length l

/-- Element post-processing of `yo__add_shape` (the Element Compactor):
given the pending element type and buffer, the resulting shape element
type, element count and element buffer; `none` embeds an `assert`
failure (`assert(minf > 0)` and the `assert(false)` default branch). -/
def yo__shape_elems (elem : yo__elemdata) : Option (Int × Int × List Int) :=
  if elem.etype = yo_etype_point ∨ elem.etype = yo_etype_line ∨
      elem.etype = yo_etype_triangle then
    some (elem.etype, Int.tdiv (elem.elem.length : Int) elem.etype, elem.elem)
  else if elem.etype = yo_etype_polygon ∨ elem.etype = yo_etype_polyline then
    -- minf and maxf are the run-length scan's minimum (capped by its
    -- initial value 1000000) and maximum (at least its initial value -1);
    -- assert(minf > 0) precedes the compaction test minf == maxf && maxf < 4
    if ¬(0 < (yo__run_lengths elem.elem).foldl min 1000000) then none
    else if (yo__run_lengths elem.elem).foldl min 1000000
          = (yo__run_lengths elem.elem).foldl max (-1) ∧
        (yo__run_lengths elem.elem).foldl max (-1) < 4 then
      some ((yo__run_lengths elem.elem).foldl max (-1),
        ((yo__run_lengths elem.elem).length : Int),
        yo__compact ((yo__run_lengths elem.elem).foldl max (-1)).toNat elem.elem)
    else
      some (elem.etype, ((yo__run_lengths elem.elem).length : Int), elem.elem)
  else none -- assert(false)

/-- Shape construction of `yo__add_shape`: names, material id, transform
flag, vertex-array copy guarded by the length asserts, and elements
through `yo__shape_elems`; `none` embeds an `assert` failure. -/
def yo__make_shape (materials : List yo_material)
    (name matname groupname : String) (xform : ym_affine3f)
    (elem : yo__elemdata) (vert : yo__vertdata) : Option yo_shape :=
  -- assert: every per-vertex array is empty or as long as the positions
  if ¬((vert.norm.length : Int) = (vert.pos.length : Int) ∨ vert.norm = []) then none
  else if ¬((vert.texcoord.length : Int) = (vert.pos.length : Int) ∨ vert.texcoord = []) then none
  else if ¬((vert.color.length : Int) = (vert.pos.length : Int) ∨ vert.color = []) then none
  else if ¬((vert.radius.length : Int) = (vert.pos.length : Int) ∨ vert.radius = []) then none
  else
    match yo__shape_elems elem with
    | none => none
    | some (etype, nelems, el) =>
      some { name := name, matname := matname, groupname := groupname
             matid := yo__find_matid materials matname
             nelems := nelems, elem := el, etype := etype
             nverts := (vert.pos.length : Int)
             pos := vert.pos, norm := vert.norm, texcoord := vert.texcoord
             color := vert.color, radius := vert.radius
             xformed := !(xform == ym_identity_affine3f), xform := xform }

/-- Flushes a shape into the scene if elements are present
(`yo__add_shape`).  Returns the new shape list together with the cleared
element, vertex and hash buffers; `none` embeds an `assert` failure. -/
def yo__add_shape (shapes : List yo_shape) (materials : List yo_material)
    (name matname groupname : String) (xform : ym_affine3f)
    (elem : yo__elemdata) (vert : yo__vertdata) (vhash : yo__vhash) :
    Option (List yo_shape × yo__elemdata × yo__vertdata × yo__vhash) :=
  -- exit if nothing to do
  if elem.elem = [] then some (shapes, elem, vert, vhash)
  else
    match yo__make_shape materials name matname groupname xform elem vert with
    | none => none
    | some shape =>
      some (shapes ++ [shape], { etype := 0, elem := [] }, yo__vertdata_empty,
        yo__vhash_empty)

/-- Adds a unique texture path (`yo__add_unique_texture`). -/
def yo__add_unique_texture (textures : List yo_texture) (path : String) :
    Int × List yo_texture :=
  if path = "" then (-1, textures)
  else
    match textures.findIdx? (fun t => t.path == path) with
    | some i => ((i : Int), textures)
    | none => ((textures.length : Int), textures ++ [{ path := path }])

/-- Fetch of a position pool entry used by `yo__add_camera`/`yo__add_env`. -/
def yo__pool3 (pool : List ym_vec3f) (i : Int) : ym_vec3f :=
  pool.getD i.toNat (0, 0, 0)

/-- Adds a camera from two parsed OBJ vertices (`yo__add_camera`); the
vertex hash is cleared afterwards. -/
def yo__add_camera (cameras : List yo_camera) (name : String)
    (from_ to_ : yo__vert) (obj_vert : yo__vertdata) :
    List yo_camera × yo__vhash :=
  let cam : yo_camera :=
    { name := name
      from_ := yo__pool3 obj_vert.pos from_.pos
      to_ := yo__pool3 obj_vert.pos to_.pos
      up := if 0 ≤ from_.norm then yo__pool3 obj_vert.norm from_.norm else (0, 1, 0)
      width := if 0 ≤ to_.texcoord then (obj_vert.texcoord.getD to_.texcoord.toNat (0, 0)).1 else 1
      height := if 0 ≤ to_.texcoord then (obj_vert.texcoord.getD to_.texcoord.toNat (0, 0)).2 else 1
      aperture := if 0 ≤ from_.texcoord then (obj_vert.texcoord.getD from_.texcoord.toNat (0, 0)).1 else 0 }
  (cameras ++ [cam], yo__vhash_empty)

/-- Adds an environment map from two parsed OBJ vertices (`yo__add_env`);
the vertex hash is cleared afterwards. -/
def yo__add_env (envs : List yo_env) (name matname : String)
    (from_ to_ : yo__vert) (obj_vert : yo__vertdata) :
    List yo_env × yo__vhash :=
  let env : yo_env :=
    { name := name
      matname := matname
      from_ := yo__pool3 obj_vert.pos from_.pos
      to_ := yo__pool3 obj_vert.pos to_.pos
      up := if 0 ≤ from_.norm then yo__pool3 obj_vert.norm from_.norm else (0, 1, 0) }
  (envs ++ [env], yo__vhash_empty)

/-- One input record of `yo_load_obj`, at the level of a tokenized and
numerically parsed line.  `mtllib` carries the result of a successful
material-library scan (an external collaborator); comment lines and blank
lines are skipped before this level. -/
inductive yo__record where
  | v (x : ym_vec3f)
  | vt (x : ym_vec2f)
  | vn (x : ym_vec3f)
  | vc (x : ym_vec3f)
  | vr (x : Rat)
  | xf (m : ym_affine3f)
  | c (t1 t2 : yo__tok)
  | e (t1 t2 : yo__tok)
  | f (ts : List yo__tok)
  | l (ts : List yo__tok)
  | p (ts : List yo__tok)
  | o (oname : String)
  | g (gname : String)
  | usemtl (mname : String)
  | mtllib (mats : List yo_material)

/-- The mutable state of the `yo_load_obj` parsing loop. -/
structure yo__loadstate where
  obj_vert : yo__vertdata
  shapes : List yo_shape
  materials : List yo_material
  textures : List yo_texture
  cameras : List yo_camera
  envs : List yo_env
  vhash : yo__vhash
  name : String
  matname : String
  groupname : String
  xform : ym_affine3f
  elem : yo__elemdata
  vert : yo__vertdata

/-- Initial loader state: everything empty, identity transform. -/
def yo__init_state : yo__loadstate :=
  { obj_vert := yo__vertdata_empty, shapes := [], materials := [], textures := []
    cameras := [], envs := [], vhash := yo__vhash_empty
    name := "", matname := "", groupname := "", xform := ym_identity_affine3f
    elem := { etype := 0, elem := [] }, vert := yo__vertdata_empty }

/-- Flush of the pending shape inside the loader state (the calls to
`yo__add_shape` in `yo_load_obj`). -/
def yo__flush (s : yo__loadstate) : Option yo__loadstate :=
  match yo__add_shape s.shapes s.materials s.name s.matname s.groupname s.xform
      s.elem s.vert s.vhash with
  | none => none
  | some (shapes', elem', vert', vhash') =>
    some { s with shapes := shapes', elem := elem', vert := vert', vhash := vhash' }

/-- Vertex-token loop shared by the `p` record and the non-triangulating
`f`/`l` records: parse each token, materialize its attributes, append its
local id to the element buffer. -/
def yo__verts_loop (obj_vert : yo__vertdata) :
    List yo__tok → yo__vhash → yo__vertdata → List Int →
    yo__vhash × yo__vertdata × List Int
  | [], vhash, vert, el => (vhash, vert, el)
  | tk :: rest, vhash, vert, el =>
    let pv := yo__parse_vert tk vhash obj_vert
    let vert' := yo__add_shape_vert vert pv.1 obj_vert
    yo__verts_loop obj_vert rest pv.2 vert' (el ++ [pv.1.vid])

/-- Token loop of the triangulating `f` record: fan-triangulate around the
first vertex; `t` is the 1-based token counter and `vi0` the id of the
fan apex (`int vi0 = 0` before the loop). -/
def yo__f_tri_loop (obj_vert : yo__vertdata) :
    List yo__tok → Nat → Int → yo__vhash → yo__vertdata → List Int →
    yo__vhash × yo__vertdata × List Int
  | [], _, _, vhash, vert, el => (vhash, vert, el)
  | tk :: rest, t, vi0, vhash, vert, el =>
    let pv := yo__parse_vert tk vhash obj_vert
    let vert' := yo__add_shape_vert vert pv.1 obj_vert
    let vi0' := if t = 1 then pv.1.vid else vi0
    let el' := if 3 < t then el ++ [vi0', el.getLastD 0, pv.1.vid] else el ++ [pv.1.vid]
    yo__f_tri_loop obj_vert rest (t + 1) vi0' pv.2 vert' el'

/-- Token loop of the triangulating `l` record: fan-expand into 2-vertex
segments; `t` is the 1-based token counter. -/
def yo__l_tri_loop (obj_vert : yo__vertdata) :
    List yo__tok → Nat → yo__vhash → yo__vertdata → List Int →
    yo__vhash × yo__vertdata × List Int
  | [], _, vhash, vert, el => (vhash, vert, el)
  | tk :: rest, t, vhash, vert, el =>
    let pv := yo__parse_vert tk vhash obj_vert
    let vert' := yo__add_shape_vert vert pv.1 obj_vert
    let el' := if 2 < t then el ++ [el.getLastD 0, pv.1.vid] else el ++ [pv.1.vid]
    yo__l_tri_loop obj_vert rest (t + 1) pv.2 vert' el'

/-- Flush performed when the pending element type differs from the type a
geometry record needs (`if (elem.etype != ...) yo__add_shape(...)`). -/
def yo__flush_if_netype (etype : Int) (s : yo__loadstate) : Option yo__loadstate :=
  if s.elem.etype ≠ etype then yo__flush s else some s

/-- Processing of one record by the `yo_load_obj` line loop. -/
def yo__process1 (triangulate ext : Bool) (s : yo__loadstate) :
    yo__record → Option yo__loadstate
  | .v x =>
    some { s with obj_vert := { s.obj_vert with pos := s.obj_vert.pos ++ [x] } }
  | .vt x =>
    some { s with obj_vert := { s.obj_vert with texcoord := s.obj_vert.texcoord ++ [x] } }
  | .vn x =>
    some { s with obj_vert := { s.obj_vert with norm := s.obj_vert.norm ++ [x] } }
  | .vc x =>
    -- NOTE: the source pushes a "vc" record onto the *norm* pool
    if ext then
      some { s with obj_vert := { s.obj_vert with norm := s.obj_vert.norm ++ [x] } }
    else some s
  | .vr x =>
    if ext then
      some { s with obj_vert := { s.obj_vert with radius := s.obj_vert.radius ++ [x] } }
    else some s
  | .xf m => if ext then some { s with xform := m } else some s
  | .c t1 t2 =>
    if ext then
      match yo__flush s with
      | none => none
      | some s1 =>
        let p1 := yo__parse_vert t1 s1.vhash s1.obj_vert
        let p2 := yo__parse_vert t2 p1.2 s1.obj_vert
        let cams := yo__add_camera s1.cameras s1.name p1.1 p2.1 s1.obj_vert
        some { s1 with cameras := cams.1, vhash := cams.2
                       name := "", matname := "", xform := ym_identity_affine3f }
    else some s
  | .e t1 t2 =>
    if ext then
      match yo__flush s with
      | none => none
      | some s1 =>
        let p1 := yo__parse_vert t1 s1.vhash s1.obj_vert
        let p2 := yo__parse_vert t2 p1.2 s1.obj_vert
        let es := yo__add_env s1.envs s1.name s1.matname p1.1 p2.1 s1.obj_vert
        some { s1 with envs := es.1, vhash := es.2
                       name := "", matname := "", xform := ym_identity_affine3f }
    else some s
  | .f ts =>
    if triangulate then
      match yo__flush_if_netype yo_etype_triangle s with
      | none => none
      | some s1 =>
        let r := yo__f_tri_loop s1.obj_vert ts 1 0 s1.vhash s1.vert s1.elem.elem
        some { s1 with vhash := r.1, vert := r.2.1
                       elem := { etype := yo_etype_triangle, elem := r.2.2 } }
    else
      match yo__flush_if_netype yo_etype_polygon s with
      | none => none
      | some s1 =>
        let r := yo__verts_loop s1.obj_vert ts s1.vhash s1.vert
          (s1.elem.elem ++ [(ts.length : Int)])
        some { s1 with vhash := r.1, vert := r.2.1
                       elem := { etype := yo_etype_polygon, elem := r.2.2 } }
  | .l ts =>
    if triangulate then
      match yo__flush_if_netype yo_etype_line s with
      | none => none
      | some s1 =>
        let r := yo__l_tri_loop s1.obj_vert ts 1 s1.vhash s1.vert s1.elem.elem
        some { s1 with vhash := r.1, vert := r.2.1
                       elem := { etype := yo_etype_line, elem := r.2.2 } }
    else
      match yo__flush_if_netype yo_etype_polyline s with
      | none => none
      | some s1 =>
        let r := yo__verts_loop s1.obj_vert ts s1.vhash s1.vert
          (s1.elem.elem ++ [(ts.length : Int)])
        some { s1 with vhash := r.1, vert := r.2.1
                       elem := { etype := yo_etype_polyline, elem := r.2.2 } }
  | .p ts =>
    match yo__flush_if_netype yo_etype_point s with
    | none => none
    | some s1 =>
      let r := yo__verts_loop s1.obj_vert ts s1.vhash s1.vert s1.elem.elem
      some { s1 with vhash := r.1, vert := r.2.1
                     elem := { etype := yo_etype_point, elem := r.2.2 } }
  | .o oname =>
    match yo__flush s with
    | none => none
    | some s1 =>
      some { s1 with name := oname, matname := "", groupname := ""
                     xform := ym_identity_affine3f }
  | .g gname =>
    match yo__flush s with
    | none => none
    | some s1 => some { s1 with groupname := gname }
  | .usemtl mname =>
    match yo__flush s with
    | none => none
    | some s1 => some { s1 with matname := mname }
  | .mtllib mats =>
    some { s with materials := s.materials ++ mats }

/-- Left-to-right fold of `yo__process1` over the input records. -/
def yo__process (triangulate ext : Bool) : yo__loadstate → List yo__record →
    Option yo__loadstate
  | s, [] => some s
  | s, r :: rs =>
    match yo__process1 triangulate ext s r with
    | none => none
    | some s' => yo__process triangulate ext s' rs

/-- Loads an OBJ given as a record list (`yo_load_obj`): fold over the
records, final unconditional flush, then package the scene. -/
def yo_load_obj (records : List yo__record) (triangulate ext : Bool) :
    Option yo_scene :=
  match yo__process triangulate ext yo__init_state records with
  | none => none
  | some s =>
    match yo__flush s with
    | none => none
    | some s' =>
      some { shapes := s'.shapes, materials := s'.materials
             textures := s'.textures, cameras := s'.cameras, envs := s'.envs }

/-- Raw shape record of the binary dump, as decoded field by field by
`yo_load_objbin` (the byte-level length-prefixed decoding is mechanical
and I/O-side). -/
structure yo__binshape where
  name : String
  groupname : String
  matname : String
  nelems : Int
  elem : List Int
  etype : Int
  nverts : Int
  pos : List ym_vec3f
  norm : List ym_vec3f
  texcoord : List ym_vec2f
  color : List ym_vec3f
  radius : List Rat
deriving DecidableEq

/-- Raw material record of the binary dump (texture ids are recomputed by
the loader, so only paths are stored). -/
structure yo__binmat where
  name : String
  illum : Int
  ke : ym_vec3f
  ka : ym_vec3f
  kd : ym_vec3f
  ks : ym_vec3f
  kr : ym_vec3f
  kt : ym_vec3f
  ns : Rat
  ior : Rat
  op : Rat
  ke_txt : String
  ka_txt : String
  kd_txt : String
  ks_txt : String
  kr_txt : String
  kt_txt : String
  ns_txt : String
  op_txt : String
  ior_txt : String
  bump_txt : String
  disp_txt : String
deriving DecidableEq

/-- Decoded content of a binary dump file with a valid magic constant. -/
structure yo__binfile where
  cameras : List yo_camera
  envs : List yo_env
  materials : List yo__binmat
  shapes : List yo__binshape
deriving DecidableEq

/-- Material loading step of `yo_load_objbin`: copy the fields and resolve
every texture path through `yo__add_unique_texture`. -/
def yo__binmat_load (textures : List yo_texture) (m : yo__binmat) :
    yo_material × List yo_texture :=
  let rke := yo__add_unique_texture textures m.ke_txt
  let rka := yo__add_unique_texture rke.2 m.ka_txt
  let rkd := yo__add_unique_texture rka.2 m.kd_txt
  let rks := yo__add_unique_texture rkd.2 m.ks_txt
  let rkr := yo__add_unique_texture rks.2 m.kr_txt
  let rkt := yo__add_unique_texture rkr.2 m.kt_txt
  let rns := yo__add_unique_texture rkt.2 m.ns_txt
  let rop := yo__add_unique_texture rns.2 m.op_txt
  let rior := yo__add_unique_texture rop.2 m.ior_txt
  let rbump := yo__add_unique_texture rior.2 m.bump_txt
  let rdisp := yo__add_unique_texture rbump.2 m.disp_txt
  ({ name := m.name, illum := m.illum, ke := m.ke, ka := m.ka, kd := m.kd
     ks := m.ks, kr := m.kr, kt := m.kt, ns := m.ns, ior := m.ior, op := m.op
     ke_txt := m.ke_txt, ka_txt := m.ka_txt, kd_txt := m.kd_txt
     ks_txt := m.ks_txt, kr_txt := m.kr_txt, kt_txt := m.kt_txt
     ns_txt := m.ns_txt, op_txt := m.op_txt, ior_txt := m.ior_txt
     bump_txt := m.bump_txt, disp_txt := m.disp_txt
     ke_txtid := rke.1, ka_txtid := rka.1, kd_txtid := rkd.1, ks_txtid := rks.1
     kr_txtid := rkr.1, kt_txtid := rkt.1, ns_txtid := rns.1, op_txtid := rop.1
     ior_txtid := rior.1, bump_txtid := rbump.1, disp_txtid := rdisp.1 },
   rdisp.2)

/-- Material list loading fold of `yo_load_objbin`. -/
def yo__binmats_load (textures : List yo_texture) :
    List yo__binmat → List yo_material × List yo_texture
  | [] => ([], textures)
  | m :: ms =>
    let r := yo__binmat_load textures m
    let rest := yo__binmats_load r.2 ms
    (r.1 :: rest.1, rest.2)

/-- Shape loading step of `yo_load_objbin`: copy the fields; with `ext`
set the color and radius vectors just read are cleared; the material id
is resolved by exact (case-sensitive) name match. -/
def yo__binshape_load (ext : Bool) (materials : List yo_material)
    (sh : yo__binshape) : yo_shape :=
  { name := sh.name, groupname := sh.groupname, matname := sh.matname
    nelems := sh.nelems, elem := sh.elem, etype := sh.etype, nverts := sh.nverts
    pos := sh.pos, norm := sh.norm, texcoord := sh.texcoord
    color := if ext then [] else sh.color
    radius := if ext then [] else sh.radius
    matid :=
      match materials.findIdx? (fun m => sh.matname == m.name) with
      | some j => (j : Int)
      | none => -1
    xformed := false, xform := ym_identity_affine3f }

/-- Loads a binary OBJ dump (`yo_load_objbin`) from its decoded content:
cameras and environments are dropped when `ext` is off, materials resolve
their texture paths, and every shape is loaded via `yo__binshape_load`. -/
def yo_load_objbin (ext : Bool) (file : yo__binfile) : yo_scene :=
  let cameras := if ext then file.cameras else []
  let envs := if ext then file.envs else []
  let mats := yo__binmats_load [] file.materials
  { shapes := file.shapes.map (yo__binshape_load ext mats.1)
    materials := mats.1, textures := mats.2, cameras := cameras, envs := envs }


/-- Concrete loader state with one pending point element, used to witness
the shape-boundary behaviour. -/
def yo__c6_state : yo__loadstate :=
  { yo__init_state with
      obj_vert := { yo__vertdata_empty with pos := [(1, 2, 3)] }
      elem := { etype := 1, elem := [0] }
      vert := { yo__vertdata_empty with pos := [(1, 2, 3)] } }

/-- Result of a group record on `yo__c6_state`. -/
def yo__c6_result : yo__loadstate :=
  (yo__process1 false false yo__c6_state (yo__record.g "grp")).getD yo__c6_state

/-- Result of an object record on the empty initial state. -/
def yo__c6_result2 : yo__loadstate :=
  (yo__process1 false false yo__init_state (yo__record.o "obj")).getD yo__init_state

/-- Loader state after processing a single color record with extensions
enabled, used to exhibit the `vc` pool routing. -/
def yo__c2_result : yo__loadstate :=
  (yo__process false true yo__init_state [yo__record.vc (1, 2, 3)]).getD yo__init_state

/-- Materials used to witness the case-insensitive material resolution. -/
def yo__c9_mats : List yo_material := [{ name := "other" }, { name := "STEEL" }]

/-- Result of a flush resolving material name `sTeEl` against
`yo__c9_mats`. -/
def yo__c9_result : List yo_shape × yo__elemdata × yo__vertdata × yo__vhash :=
  (yo__add_shape [] yo__c9_mats "" "sTeEl" "" ym_identity_affine3f
      { etype := 1, elem := [0] } { yo__vertdata_empty with pos := [(0, 0, 0)] }
      yo__vhash_empty).getD
    ([], { etype := 0, elem := [] }, yo__vertdata_empty, yo__vhash_empty)

/-- Binary dump content used to witness the `ext` color/radius behaviour. -/
def yo__c10_file : yo__binfile :=
  { cameras := [], envs := [], materials := []
    shapes := [{ name := "s", groupname := "", matname := "", nelems := 1
                 elem := [0], etype := 1, nverts := 1, pos := [(0, 0, 0)]
                 norm := [], texcoord := [], color := [(1, 2, 3)], radius := [7] }] }

/-- Run-length encoding of a variable-type element buffer: each run is
stored as its vertex count followed by the vertex ids (the form built by
the non-triangulating `f`/`l` branches of `yo_load_obj`). -/
def yo__encode_runs : List (List Int) → List Int
  | [] => []
  | r :: rest => ((r.length : Int) :: r) ++ yo__encode_runs rest

/-- Flush used to witness uniform polygon compaction: two 3-vertex runs. -/
def yo__c5_r1 : List yo_shape × yo__elemdata × yo__vertdata × yo__vhash :=
  (yo__add_shape [] [] "" "" "" ym_identity_affine3f
      { etype := 13, elem := yo__encode_runs [[0, 1, 2], [0, 2, 1]] }
      { yo__vertdata_empty with pos := [(0, 0, 0), (1, 0, 0), (1, 1, 0)] }
      yo__vhash_empty).getD
    ([], { etype := 0, elem := [] }, yo__vertdata_empty, yo__vhash_empty)

/-- Flush used to witness mixed-run preservation: a 2-run and a 3-run. -/
def yo__c5_r2 : List yo_shape × yo__elemdata × yo__vertdata × yo__vhash :=
  (yo__add_shape [] [] "" "" "" ym_identity_affine3f
      { etype := 13, elem := yo__encode_runs [[0, 1], [0, 1, 2]] }
      { yo__vertdata_empty with pos := [(0, 0, 0), (1, 0, 0), (1, 1, 0)] }
      yo__vhash_empty).getD
    ([], { etype := 0, elem := [] }, yo__vertdata_empty, yo__vhash_empty)

/-- Per-vertex array regularity of a shape: each array is either empty or
exactly `nverts` long. -/
def yo__shape_arrays_ok (sh : yo_shape) : Prop :=
  ((sh.pos.length : Int) = sh.nverts ∨ sh.pos = []) ∧
  ((sh.norm.length : Int) = sh.nverts ∨ sh.norm = []) ∧
  ((sh.texcoord.length : Int) = sh.nverts ∨ sh.texcoord = []) ∧
  ((sh.color.length : Int) = sh.nverts ∨ sh.color = []) ∧
  ((sh.radius.length : Int) = sh.nverts ∨ sh.radius = [])

/-- Records used to witness the per-vertex array invariant: positions and
texcoords but no normals. -/
def yo__c3_records : List yo__record :=
  [yo__record.v (1, 2, 3), yo__record.vt (0, 1), yo__record.p [[1, 1]]]

/-- Scene loaded from `yo__c3_records`. -/
def yo__c3_scene : yo_scene :=
  (yo_load_obj yo__c3_records false false).getD
    { shapes := [], materials := [], textures := [], cameras := [], envs := [] }

/-- The local ids produced by parsing a token list in sequence (the `vid`
stream of the geometry-record loops). -/
def yo__vids_of (ov : yo__vertdata) : yo__vhash → List yo__tok → List Int
  | _, [] => []
  | vh, tk :: rest =>
    (yo__parse_vert tk vh ov).1.vid :: yo__vids_of ov (yo__parse_vert tk vh ov).2 rest

/-- Triangle-fan element stream of the triangulating `f` loop from the
fourth vertex on: each later vertex `w` contributes the triangle
`[vi0, prev, w]`. -/
def yo__fan_triples (vi0 : Int) : Int → List Int → List Int
  | _, [] => []
  | prev, w :: ws => vi0 :: prev :: w :: yo__fan_triples vi0 w ws

/-- Records of the quad scenario `f 1 2 3 4` with triangulation on. -/
def yo__c4_records : List yo__record :=
  [yo__record.v (0, 0, 0), yo__record.v (1, 0, 0), yo__record.v (1, 1, 0),
   yo__record.v (0, 1, 0), yo__record.f [[1], [2], [3], [4]]]

/-- Scene loaded from the quad scenario. -/
def yo__c4_scene : yo_scene :=
  (yo_load_obj yo__c4_records true false).getD
    { shapes := [], materials := [], textures := [], cameras := [], envs := [] }

/-- Loader state of the quad scenario just before its face record. -/
def yo__c4_spre : yo__loadstate :=
  (yo__process true false yo__init_state
    [yo__record.v (0, 0, 0), yo__record.v (1, 0, 0), yo__record.v (1, 1, 0),
     yo__record.v (0, 1, 0)]).getD yo__init_state

/-- Loader state of the quad scenario after its face record. -/
def yo__c4_spost : yo__loadstate :=
  (yo__process1 true false yo__c4_spre
    (yo__record.f [[1], [2], [3], [4]])).getD yo__c4_spre

/-- First occurrences of a list, in order (the insertion order of the
per-shape dedup table). -/
def yo__first_occs {α : Type} [DecidableEq α] (l : List α) : List α :=
  l.foldl (fun acc x => if x ∈ acc then acc else acc ++ [x]) []

/-- Index of the first occurrence of an element in a list. -/
def yo__idx_of {α : Type} [DecidableEq α] : List α → α → Nat
  | [], _ => 0
  | w :: ws, x => if w = x then 0 else yo__idx_of ws x + 1

/-- Records of the dedup counterexample: a point whose single token
resolves to position index `-1048576` (hash bucket 0, no position
entry materialized), then a position record, then a point referencing
position 1 twice. -/
def yo__c1_records : List yo__record :=
  [yo__record.p [[-1048576]], yo__record.v (1, 2, 3), yo__record.p [[1], [1]]]

/-- Scene loaded from the dedup counterexample records. -/
def yo__c1_scene : yo_scene :=
  (yo_load_obj yo__c1_records false false).getD
    { shapes := [], materials := [], textures := [], cameras := [], envs := [] }

/-- Invariant tying the per-shape dedup state (`vhash`, pending vertex
arrays) to the list `done` of resolved references processed so far within
the current shape: the table holds exactly the first occurrences with
their insertion index as `vid`, and every pending array holds, in
insertion order, one entry per first occurrence whose component is
present. -/
def yo__dedup_inv (ov : yo__vertdata) (done : List yo__vert) (vh : yo__vhash)
    (vt : yo__vertdata) : Prop :=
  vh.nverts = (yo__first_occs done).length ∧
  (∀ (k : Int) (w : yo__vert), w ∈ vh.v k ↔
    ∃ (i : Nat) (τ : yo__vert), (yo__first_occs done).get? i = some τ ∧
      w = { τ with vid := (i : Int) } ∧ Int.tmod w.pos yo__vhash_size = k) ∧
  vt.pos = (yo__first_occs done).map (fun τ => ov.pos.getD τ.pos.toNat (0, 0, 0)) ∧
  vt.texcoord = ((yo__first_occs done).filter (fun τ => decide (0 ≤ τ.texcoord))).map
    (fun τ => ov.texcoord.getD τ.texcoord.toNat (0, 0)) ∧
  vt.norm = ((yo__first_occs done).filter (fun τ => decide (0 ≤ τ.norm))).map
    (fun τ => ov.norm.getD τ.norm.toNat (0, 0, 0)) ∧
  vt.color = ((yo__first_occs done).filter (fun τ => decide (0 ≤ τ.color))).map
    (fun τ => ov.color.getD τ.color.toNat (0, 0, 0)) ∧
  vt.radius = ((yo__first_occs done).filter (fun τ => decide (0 ≤ τ.radius))).map
    (fun τ => ov.radius.getD τ.radius.toNat 0)

/-- Vertex pools of the dedup witness scenario: two positions, nothing
else. -/
def yo__c1w_ov : yo__vertdata :=
  { pos := [(1, 2, 3), (4, 5, 6)], texcoord := [], norm := [], color := []
    radius := [] }

/-! ## Helper lemmas -/

lemma yo__run_lengths_fuel_congr :
    ∀ (fuel1 fuel2 : Nat) (l : List Int), l.length ≤ fuel1 → l.length ≤ fuel2 →
      yo__run_lengths_fuel fuel1 l = yo__run_lengths_fuel fuel2 l := by
  intro fuel1
  induction fuel1 with
  | zero =>
    intro fuel2 l h1 _
    cases l with
    | nil => cases fuel2 <;> rfl
    | cons c rest => simp at h1
  | succ f ih =>
    intro fuel2 l h1 h2
    cases l with
    | nil => cases fuel2 <;> rfl
    | cons c rest =>
      cases fuel2 with
      | zero => simp at h2
      | succ f2 =>
        show c :: yo__run_lengths_fuel f (rest.drop c.toNat)
          = c :: yo__run_lengths_fuel f2 (rest.drop c.toNat)
        have hd : (rest.drop c.toNat).length ≤ rest.length := by
          rw [List.length_drop]; omega
        simp only [List.length_cons] at h1 h2
        rw [ih f2 (rest.drop c.toNat) (by omega) (by omega)]

lemma yo__run_lengths_nil : yo__run_lengths [] = [] := rfl

lemma yo__run_lengths_cons (c : Int) (rest : List Int) :
    yo__run_lengths (c :: rest) = c :: yo__run_lengths (rest.drop c.toNat) := by
  show yo__run_lengths_fuel (rest.length + 1) (c :: rest) = _
  show c :: yo__run_lengths_fuel rest.length (rest.drop c.toNat) = _
  unfold yo__run_lengths
  congr 1
  apply yo__run_lengths_fuel_congr
  · rw [List.length_drop]; omega
  · exact le_refl _

lemma yo__compact_fuel_congr (m : Nat) :
    ∀ (fuel1 fuel2 : Nat) (l : List Int), l.length ≤ fuel1 → l.length ≤ fuel2 →
      yo__compact_fuel m fuel1 l = yo__compact_fuel m fuel2 l := by
  intro fuel1
  induction fuel1 with
  | zero =>
    intro fuel2 l h1 _
    cases l with
    | nil => cases fuel2 <;> rfl
    | cons c rest => simp at h1
  | succ f ih =>
    intro fuel2 l h1 h2
    cases l with
    | nil => cases fuel2 <;> rfl
    | cons c rest =>
      cases fuel2 with
      | zero => simp at h2
      | succ f2 =>
        show rest.take m ++ yo__compact_fuel m f (rest.drop m)
          = rest.take m ++ yo__compact_fuel m f2 (rest.drop m)
        simp only [List.length_cons] at h1 h2
        rw [ih f2 (rest.drop m) (by rw [List.length_drop]; omega)
          (by rw [List.length_drop]; omega)]

lemma yo__compact_nil (m : Nat) : yo__compact m [] = [] := rfl

lemma yo__compact_cons (m : Nat) (c : Int) (rest : List Int) :
    yo__compact m (c :: rest) = rest.take m ++ yo__compact m (rest.drop m) := by
  show yo__compact_fuel m (rest.length + 1) (c :: rest) = _
  show rest.take m ++ yo__compact_fuel m rest.length (rest.drop m) = _
  unfold yo__compact
  congr 1
  apply yo__compact_fuel_congr
  · rw [List.length_drop]; omega
  · exact le_refl _

lemma yo__parse_vert_tuple (tok : yo__tok) (vh : yo__vhash) (ov : yo__vertdata) :
    (yo__parse_vert tok vh ov).1.pos = (yo__resolve_tok ov tok).pos ∧
    (yo__parse_vert tok vh ov).1.texcoord = (yo__resolve_tok ov tok).texcoord ∧
    (yo__parse_vert tok vh ov).1.norm = (yo__resolve_tok ov tok).norm ∧
    (yo__parse_vert tok vh ov).1.color = (yo__resolve_tok ov tok).color ∧
    (yo__parse_vert tok vh ov).1.radius = (yo__resolve_tok ov tok).radius := by
  unfold yo__parse_vert
  cases hf : ((vh.v (Int.tmod (yo__resolve_tok ov tok).pos yo__vhash_size)).find?
      (fun w => yo__vert_match (yo__resolve_tok ov tok) w)) with
  | none => simp [hf]
  | some w =>
    have hm := List.find?_some hf
    simp only [yo__vert_match, Bool.and_eq_true, beq_iff_eq] at hm
    simp only [hf]
    exact ⟨hm.1.1.1.1.symm, hm.1.1.1.2.symm, hm.1.1.2.symm, hm.1.2.symm, hm.2.symm⟩

lemma yo__resolve1_pos {k : Int} (len : Int) (h : 0 < k) :
    yo__resolve1 len (some k) = k - 1 := by
  simp only [yo__resolve1]
  rw [if_neg (by omega)]

lemma yo__resolve1_neg {k : Int} (len : Int) (h : k < 0) :
    yo__resolve1 len (some k) = len + k := by
  simp only [yo__resolve1]
  rw [if_pos h]

/-! ## Claim theorems -/

/-- Claim C8: in `yo__parse_vert`, a positive raw index value resolves to
`value - 1`, a negative raw index value resolves to (pool length at the
time the record is processed) `+ value`, and an absent component resolves
to the sentinel `-1`, for each of the five attribute components
independently. -/
theorem claim_C8_index_resolution (tok : yo__tok) (vh : yo__vhash) (ov : yo__vertdata) :
    ((∀ k, tok.get? 0 = some k → 0 < k → (yo__parse_vert tok vh ov).1.pos = k - 1) ∧
     (∀ k, tok.get? 0 = some k → k < 0 →
        (yo__parse_vert tok vh ov).1.pos = (ov.pos.length : Int) + k) ∧
     (tok.get? 0 = none → (yo__parse_vert tok vh ov).1.pos = -1)) ∧
    ((∀ k, tok.get? 1 = some k → 0 < k → (yo__parse_vert tok vh ov).1.texcoord = k - 1) ∧
     (∀ k, tok.get? 1 = some k → k < 0 →
        (yo__parse_vert tok vh ov).1.texcoord = (ov.texcoord.length : Int) + k) ∧
     (tok.get? 1 = none → (yo__parse_vert tok vh ov).1.texcoord = -1)) ∧
    ((∀ k, tok.get? 2 = some k → 0 < k → (yo__parse_vert tok vh ov).1.norm = k - 1) ∧
     (∀ k, tok.get? 2 = some k → k < 0 →
        (yo__parse_vert tok vh ov).1.norm = (ov.norm.length : Int) + k) ∧
     (tok.get? 2 = none → (yo__parse_vert tok vh ov).1.norm = -1)) ∧
    ((∀ k, tok.get? 3 = some k → 0 < k → (yo__parse_vert tok vh ov).1.color = k - 1) ∧
     (∀ k, tok.get? 3 = some k → k < 0 →
        (yo__parse_vert tok vh ov).1.color = (ov.color.length : Int) + k) ∧
     (tok.get? 3 = none → (yo__parse_vert tok vh ov).1.color = -1)) ∧
    ((∀ k, tok.get? 4 = some k → 0 < k → (yo__parse_vert tok vh ov).1.radius = k - 1) ∧
     (∀ k, tok.get? 4 = some k → k < 0 →
        (yo__parse_vert tok vh ov).1.radius = (ov.radius.length : Int) + k) ∧
     (tok.get? 4 = none → (yo__parse_vert tok vh ov).1.radius = -1)) := by
  obtain ⟨h0, h1, h2, h3, h4⟩ := yo__parse_vert_tuple tok vh ov
  refine ⟨⟨fun k hk hlt => ?_, fun k hk hlt => ?_, fun hk => ?_⟩,
          ⟨fun k hk hlt => ?_, fun k hk hlt => ?_, fun hk => ?_⟩,
          ⟨fun k hk hlt => ?_, fun k hk hlt => ?_, fun hk => ?_⟩,
          ⟨fun k hk hlt => ?_, fun k hk hlt => ?_, fun hk => ?_⟩,
          ⟨fun k hk hlt => ?_, fun k hk hlt => ?_, fun hk => ?_⟩⟩
  all_goals
    first
      | (rw [h0]; simp only [yo__resolve_tok]; rw [hk]
         first
           | exact yo__resolve1_pos _ hlt
           | exact yo__resolve1_neg _ hlt
           | rfl)
      | (rw [h1]; simp only [yo__resolve_tok]; rw [hk]
         first
           | exact yo__resolve1_pos _ hlt
           | exact yo__resolve1_neg _ hlt
           | rfl)
      | (rw [h2]; simp only [yo__resolve_tok]; rw [hk]
         first
           | exact yo__resolve1_pos _ hlt
           | exact yo__resolve1_neg _ hlt
           | rfl)
      | (rw [h3]; simp only [yo__resolve_tok]; rw [hk]
         first
           | exact yo__resolve1_pos _ hlt
           | exact yo__resolve1_neg _ hlt
           | rfl)
      | (rw [h4]; simp only [yo__resolve_tok]; rw [hk]
         first
           | exact yo__resolve1_pos _ hlt
           | exact yo__resolve1_neg _ hlt
           | rfl)

/-- Witness for claim C8 at a token with raw fields `5` and `-2` against a
pool state with one position and two texcoords. -/
theorem claim_C8_witness :
    (yo__parse_vert [5, -2] yo__vhash_empty
        { yo__vertdata_empty with pos := [(1, 1, 1)], texcoord := [(0, 0), (2, 3)] }).1.pos = 4 ∧
    (yo__parse_vert [5, -2] yo__vhash_empty
        { yo__vertdata_empty with pos := [(1, 1, 1)], texcoord := [(0, 0), (2, 3)] }).1.texcoord = 0 ∧
    (yo__parse_vert [5, -2] yo__vhash_empty
        { yo__vertdata_empty with pos := [(1, 1, 1)], texcoord := [(0, 0), (2, 3)] }).1.norm = -1 := by
  refine ⟨?_, ?_, ?_⟩
  · exact (claim_C8_index_resolution [5, -2] yo__vhash_empty _).1.1 5 rfl (by norm_num)
  · have := (claim_C8_index_resolution [5, -2] yo__vhash_empty
      { yo__vertdata_empty with pos := [(1, 1, 1)], texcoord := [(0, 0), (2, 3)] }).2.1.2.1
      (-2) rfl (by norm_num)
    simpa using this
  · exact (claim_C8_index_resolution [5, -2] yo__vhash_empty _).2.2.1.2.2 rfl

lemma yo__make_shape_fields {materials : List yo_material} {n m g : String}
    {x : ym_affine3f} {elem : yo__elemdata} {vert : yo__vertdata} {sh : yo_shape}
    (hm : yo__make_shape materials n m g x elem vert = some sh) :
    sh.name = n ∧ sh.matname = m ∧ sh.groupname = g ∧
    sh.matid = yo__find_matid materials m ∧
    sh.nverts = (vert.pos.length : Int) ∧
    sh.pos = vert.pos ∧ sh.norm = vert.norm ∧ sh.texcoord = vert.texcoord ∧
    sh.color = vert.color ∧ sh.radius = vert.radius ∧
    ((vert.norm.length : Int) = (vert.pos.length : Int) ∨ vert.norm = []) ∧
    ((vert.texcoord.length : Int) = (vert.pos.length : Int) ∨ vert.texcoord = []) ∧
    ((vert.color.length : Int) = (vert.pos.length : Int) ∨ vert.color = []) ∧
    ((vert.radius.length : Int) = (vert.pos.length : Int) ∨ vert.radius = []) := by
  unfold yo__make_shape at hm
  split_ifs at hm with h1 h2 h3 h4
  cases hse : yo__shape_elems elem with
  | none =>
    rw [hse] at hm
    cases hm
  | some t =>
    obtain ⟨et, ne, el⟩ := t
    rw [hse] at hm
    injection hm with hm'
    subst hm'
    exact ⟨rfl, rfl, rfl, rfl, rfl, rfl, rfl, rfl, rfl, rfl, h1, h2, h3, h4⟩

lemma yo__add_shape_empty {shapes : List yo_shape} {materials : List yo_material}
    {n m g : String} {x : ym_affine3f} {elem : yo__elemdata} {vert : yo__vertdata}
    {vh : yo__vhash} (h : elem.elem = []) :
    yo__add_shape shapes materials n m g x elem vert vh = some (shapes, elem, vert, vh) := by
  unfold yo__add_shape
  rw [if_pos h]

lemma yo__add_shape_nonempty {shapes : List yo_shape} {materials : List yo_material}
    {n m g : String} {x : ym_affine3f} {elem : yo__elemdata} {vert : yo__vertdata}
    {vh : yo__vhash} {r : List yo_shape × yo__elemdata × yo__vertdata × yo__vhash}
    (h : elem.elem ≠ [])
    (hs : yo__add_shape shapes materials n m g x elem vert vh = some r) :
    ∃ sh, yo__make_shape materials n m g x elem vert = some sh ∧
      r = (shapes ++ [sh], { etype := 0, elem := [] }, yo__vertdata_empty, yo__vhash_empty) := by
  unfold yo__add_shape at hs
  rw [if_neg h] at hs
  cases hms : yo__make_shape materials n m g x elem vert with
  | none => rw [hms] at hs; cases hs
  | some sh =>
    rw [hms] at hs
    injection hs with hs'
    exact ⟨sh, rfl, hs'.symm⟩

lemma yo__flush_empty {s : yo__loadstate} (h : s.elem.elem = []) :
    yo__flush s = some s := by
  unfold yo__flush
  rw [yo__add_shape_empty h]

lemma yo__flush_nonempty {s s1 : yo__loadstate} (h : s.elem.elem ≠ [])
    (hf : yo__flush s = some s1) :
    ∃ sh, yo__make_shape s.materials s.name s.matname s.groupname s.xform s.elem s.vert = some sh ∧
      s1 = { s with shapes := s.shapes ++ [sh], elem := { etype := 0, elem := [] }
                    vert := yo__vertdata_empty, vhash := yo__vhash_empty } := by
  unfold yo__flush at hf
  cases has : yo__add_shape s.shapes s.materials s.name s.matname s.groupname s.xform
      s.elem s.vert s.vhash with
  | none => rw [has] at hf; cases hf
  | some r =>
    rw [has] at hf
    obtain ⟨sh, hm, hr⟩ := yo__add_shape_nonempty h has
    subst hr
    injection hf with hf'
    exact ⟨sh, hm, hf'.symm⟩

lemma yo__flush_of_eq {s : yo__loadstate} {s1 : yo__loadstate}
    (hf : yo__flush s = some s1) :
    s1.name = s.name ∧ s1.matname = s.matname ∧ s1.groupname = s.groupname ∧
    s1.obj_vert = s.obj_vert ∧ s1.materials = s.materials ∧ s1.xform = s.xform := by
  by_cases h : s.elem.elem = []
  · rw [yo__flush_empty h] at hf
    injection hf with hf'
    subst hf'
    exact ⟨rfl, rfl, rfl, rfl, rfl, rfl⟩
  · obtain ⟨sh, _, hs1⟩ := yo__flush_nonempty h hf
    subst hs1
    exact ⟨rfl, rfl, rfl, rfl, rfl, rfl⟩

/-- Claim C2 (evaluation of the code at the failing input): with
extensions enabled, processing a single `vc` color record appends the
parsed 3-float value to the *normal* pool and leaves the color pool
empty — the source's `vc` branch pushes onto `obj_vert.norm` — and no
shape-boundary flush happens (no shape is appended). -/
theorem claim_C2_vc_pushes_norm_pool :
    yo__process false true yo__init_state [yo__record.vc (1, 2, 3)] = some yo__c2_result ∧
    yo__c2_result.obj_vert.color = [] ∧ yo__c2_result.obj_vert.norm = [(1, 2, 3)] ∧
    yo__c2_result.obj_vert.pos = [] ∧ yo__c2_result.shapes = [] :=
  ⟨rfl, rfl, rfl, rfl, rfl⟩

/-- Claim C6: during `yo_load_obj`, an object-name (`o`), group (`g`) or
material-use (`usemtl`) record processed while the pending element buffer
is non-empty appends exactly one new shape (named with the *old* pending
names) before the new name takes effect, and processed while the pending
element buffer is empty appends no shape. -/
theorem claim_C6_shape_boundary (tri ext : Bool) (s s' : yo__loadstate) (nm : String) :
    (yo__process1 tri ext s (yo__record.o nm) = some s' →
      (s.elem.elem ≠ [] → ∃ sh, s'.shapes = s.shapes ++ [sh] ∧
        sh.name = s.name ∧ sh.matname = s.matname ∧ sh.groupname = s.groupname) ∧
      (s.elem.elem = [] → s'.shapes = s.shapes) ∧ s'.name = nm) ∧
    (yo__process1 tri ext s (yo__record.g nm) = some s' →
      (s.elem.elem ≠ [] → ∃ sh, s'.shapes = s.shapes ++ [sh] ∧
        sh.name = s.name ∧ sh.matname = s.matname ∧ sh.groupname = s.groupname) ∧
      (s.elem.elem = [] → s'.shapes = s.shapes) ∧ s'.groupname = nm) ∧
    (yo__process1 tri ext s (yo__record.usemtl nm) = some s' →
      (s.elem.elem ≠ [] → ∃ sh, s'.shapes = s.shapes ++ [sh] ∧
        sh.name = s.name ∧ sh.matname = s.matname ∧ sh.groupname = s.groupname) ∧
      (s.elem.elem = [] → s'.shapes = s.shapes) ∧ s'.matname = nm) := by
  refine ⟨fun hp => ?_, fun hp => ?_, fun hp => ?_⟩ <;>
  · simp only [yo__process1] at hp
    cases hfl : yo__flush s with
    | none => rw [hfl] at hp; cases hp
    | some s1 =>
      rw [hfl] at hp
      injection hp with hp'
      subst hp'
      refine ⟨fun hne => ?_, fun hemp => ?_, rfl⟩
      · obtain ⟨sh, hmk, hs1⟩ := yo__flush_nonempty hne hfl
        obtain ⟨hn, hmn, hgn, _⟩ := yo__make_shape_fields hmk
        subst hs1
        exact ⟨sh, rfl, hn, hmn, hgn⟩
      · rw [yo__flush_empty hemp] at hfl
        injection hfl with h1
        subst h1
        rfl

/-- Witness for claim C6: a group record with one pending point element
appends exactly one shape carrying the old names, and an object record
with an empty pending buffer appends none. -/
theorem claim_C6_witness :
    (yo__c6_result.shapes.length = yo__c6_state.shapes.length + 1 ∧
      yo__c6_result.groupname = "grp") ∧
    (yo__c6_result2.shapes = yo__c6_state.shapes ∧ yo__c6_result2.name = "obj") := by
  have h1 := (claim_C6_shape_boundary false false yo__c6_state yo__c6_result "grp").2.1 rfl
  have h2 := (claim_C6_shape_boundary false false yo__init_state yo__c6_result2 "obj").1 rfl
  refine ⟨⟨?_, h1.2.2⟩, ?_, h2.2.2⟩
  · obtain ⟨sh, hsh, -⟩ := h1.1 (by decide)
    rw [hsh]
    simp
  · rw [h2.2.1 rfl]
    rfl

lemma yo__char_toNat_ofNat {n : Nat} (h : n.isValidChar) : (Char.ofNat n).toNat = n := by
  unfold Char.ofNat
  rw [dif_pos h]
  rfl

lemma yo__uint32_eq_of_toNat_eq {a b : UInt32} (h : a.toNat = b.toNat) : a = b := by
  cases a
  cases b
  simp only [UInt32.toNat] at h
  exact congrArg UInt32.mk (BitVec.eq_of_toNat_eq h)

lemma yo__char_eq_of_toNat_eq {a b : Char} (h : a.toNat = b.toNat) : a = b :=
  Char.ext (yo__uint32_eq_of_toNat_eq h)

lemma yo__char_toLower_toNat_zero {c : Char} (h : c.toLower.toNat = 0) : c.toNat = 0 := by
  simp only [Char.toLower] at h
  split at h
  · rename_i hc
    rw [yo__char_toNat_ofNat (Or.inl (by omega))] at h
    omega
  · exact h

lemma yo__char_toNat_eq_zero {c : Char} (h : c.toNat = 0) : c = '\x00' :=
  yo__char_eq_of_toNat_eq h

lemma yo__char_toLower_inj {c1 c2 : Char} (h : c1.toLower.toNat = c2.toLower.toNat) :
    c1.toLower = c2.toLower :=
  yo__char_eq_of_toNat_eq h

lemma yo__stricmp_eq_zero_iff :
    ∀ (a b : List Char), ('\x00' ∉ a) → ('\x00' ∉ b) →
      (yo__stricmp a b = 0 ↔ a.map Char.toLower = b.map Char.toLower)
  | [], [] => by intro _ _; simp [yo__stricmp]
  | [], c2 :: t2 => by
    intro _ hb
    have hc2 : c2.toLower.toNat ≠ 0 := by
      intro h0
      exact hb (by simp [yo__char_toNat_eq_zero (yo__char_toLower_toNat_zero h0)])
    simp only [yo__stricmp, List.map]
    constructor
    · intro h; omega
    · intro h; simp at h
  | c1 :: t1, [] => by
    intro ha _
    have hc1 : c1.toLower.toNat ≠ 0 := by
      intro h0
      exact ha (by simp [yo__char_toNat_eq_zero (yo__char_toLower_toNat_zero h0)])
    simp only [yo__stricmp, List.map]
    constructor
    · intro h; omega
    · intro h; simp at h
  | c1 :: t1, c2 :: t2 => by
    intro ha hb
    have ha' : '\x00' ∉ t1 := fun h => ha (List.mem_cons_of_mem _ h)
    have hb' : '\x00' ∉ t2 := fun h => hb (List.mem_cons_of_mem _ h)
    simp only [yo__stricmp, List.map]
    by_cases hc : c1.toLower = c2.toLower
    · rw [if_pos hc, yo__stricmp_eq_zero_iff t1 t2 ha' hb']
      constructor
      · intro h; rw [hc, h]
      · intro h; exact (List.cons_eq_cons.mp h).2
    · rw [if_neg hc]
      constructor
      · intro h
        exact absurd (yo__char_toLower_inj (by omega)) hc
      · intro h
        exact absurd (List.cons_eq_cons.mp h).1 hc

lemma yo__find_matid_loop_first (m : String) (l : List yo_material) :
    ∀ (i0 i : Nat) (mat' : yo_material), l.get? i = some mat' →
      yo__stricmp m.data mat'.name.data = 0 →
      (∀ j matj, j < i → l.get? j = some matj → yo__stricmp m.data matj.name.data ≠ 0) →
      yo__find_matid_loop m l i0 = ((i0 + i : Nat) : Int) := by
  induction l with
  | nil => intro i0 i mat' hget; simp at hget
  | cons a t ih =>
    intro i0 i mat' hget hp hmin
    cases i with
    | zero =>
      simp only [List.get?] at hget
      injection hget with hget
      subst hget
      unfold yo__find_matid_loop
      rw [if_pos hp]
      simp
    | succ i' =>
      have h0 : yo__stricmp m.data a.name.data ≠ 0 := hmin 0 a (Nat.succ_pos _) rfl
      unfold yo__find_matid_loop
      rw [if_neg h0]
      have hrec := ih (i0 + 1) i' mat' (by simpa using hget) hp
        (fun j matj hj hg => hmin (j + 1) matj (Nat.succ_lt_succ hj) (by simpa using hg))
      rw [hrec]
      congr 1
      omega

lemma yo__find_matid_loop_none (m : String) (l : List yo_material) :
    ∀ (i0 : Nat),
      (∀ j matj, l.get? j = some matj → yo__stricmp m.data matj.name.data ≠ 0) →
      yo__find_matid_loop m l i0 = -1 := by
  induction l with
  | nil => intro i0 _; rfl
  | cons a t ih =>
    intro i0 hall
    have h0 : yo__stricmp m.data a.name.data ≠ 0 := hall 0 a rfl
    unfold yo__find_matid_loop
    rw [if_neg h0]
    exact ih (i0 + 1) (fun j matj hg => hall (j + 1) matj (by simpa using hg))

lemma yo__make_shape_isSome_mats (materials : List yo_material) (n m g : String)
    (x : ym_affine3f) (elem : yo__elemdata) (vert : yo__vertdata) :
    (yo__make_shape materials n m g x elem vert).isSome
      = (yo__make_shape [] n m g x elem vert).isSome := by
  unfold yo__make_shape
  split_ifs <;> try rfl
  cases hse : yo__shape_elems elem with
  | none => rfl
  | some t => obtain ⟨a, b, c⟩ := t; rfl

/-- Claim C9: the material id of every shape emitted by a flush is the
index of the first material whose name matches the shape's material name
under the case-insensitive comparison `yo__stricmp`, and `-1` when no
material matches; an unresolved name never turns the flush into a
failure (success is independent of the material list); and `yo__stricmp`
equality is exactly equality of the lowercased character lists. -/
theorem claim_C9_material_resolution :
    (∀ (shapes : List yo_shape) (materials : List yo_material) (n m g : String)
        (x : ym_affine3f) (elem : yo__elemdata) (vert : yo__vertdata) (vh : yo__vhash)
        (r : List yo_shape × yo__elemdata × yo__vertdata × yo__vhash),
      elem.elem ≠ [] →
      yo__add_shape shapes materials n m g x elem vert vh = some r →
      ∃ sh, r.1 = shapes ++ [sh] ∧ sh.matname = m ∧
        (∀ (i : Nat) (mi : yo_material), materials.get? i = some mi →
          yo__stricmp m.data mi.name.data = 0 →
          (∀ (j : Nat) (mj : yo_material), j < i → materials.get? j = some mj →
            yo__stricmp m.data mj.name.data ≠ 0) →
          sh.matid = (i : Int)) ∧
        ((∀ (j : Nat) (mj : yo_material), materials.get? j = some mj →
            yo__stricmp m.data mj.name.data ≠ 0) → sh.matid = -1)) ∧
    (∀ (shapes : List yo_shape) (materials : List yo_material) (n m g : String)
        (x : ym_affine3f) (elem : yo__elemdata) (vert : yo__vertdata) (vh : yo__vhash),
      (yo__add_shape shapes materials n m g x elem vert vh).isSome
        = (yo__add_shape shapes ([] : List yo_material) n m g x elem vert vh).isSome) ∧
    (∀ (a b : List Char), '\x00' ∉ a → '\x00' ∉ b →
      (yo__stricmp a b = 0 ↔ a.map Char.toLower = b.map Char.toLower)) := by
  refine ⟨?_, ?_, yo__stricmp_eq_zero_iff⟩
  · intro shapes materials n m g x elem vert vh r hne hs
    obtain ⟨sh, hmk, hr⟩ := yo__add_shape_nonempty hne hs
    obtain ⟨-, hmn, -, hmat, -⟩ := yo__make_shape_fields hmk
    subst hr
    refine ⟨sh, rfl, hmn, fun i mi hget hp hmin => ?_, fun hall => ?_⟩
    · rw [hmat]
      unfold yo__find_matid
      have := yo__find_matid_loop_first m materials 0 i mi hget hp hmin
      simpa using this
    · rw [hmat]
      exact yo__find_matid_loop_none m materials 0 hall
  · intro shapes materials n m g x elem vert vh
    unfold yo__add_shape
    split_ifs with h
    · rfl
    · have hiso := yo__make_shape_isSome_mats materials n m g x elem vert
      cases h1 : yo__make_shape materials n m g x elem vert with
      | none =>
        cases h2 : yo__make_shape ([] : List yo_material) n m g x elem vert with
        | none => rfl
        | some sh2 => rw [h1, h2] at hiso; simp at hiso
      | some sh1 =>
        cases h2 : yo__make_shape ([] : List yo_material) n m g x elem vert with
        | none => rw [h1, h2] at hiso; simp at hiso
        | some sh2 => rfl

/-- Witness for claim C9: the name `sTeEl` resolves against
`[other, STEEL]` to material index 1. -/
theorem claim_C9_witness :
    (yo__c9_result.1.get? 0).map yo_shape.matid = some 1 := by
  have h := claim_C9_material_resolution.1 [] yo__c9_mats "" "sTeEl" ""
    ym_identity_affine3f { etype := 1, elem := [0] }
    { yo__vertdata_empty with pos := [(0, 0, 0)] } yo__vhash_empty yo__c9_result
    (by decide) rfl
  obtain ⟨sh, hr, -, hfirst, -⟩ := h
  have hm : sh.matid = ((1 : Nat) : Int) := by
    apply hfirst 1 { name := "STEEL" } rfl (by decide)
    intro j mj hj hg
    have hj0 : j = 0 := by omega
    subst hj0
    simp only [yo__c9_mats, List.get?] at hg
    injection hg with hg
    subst hg
    decide
  rw [hr]
  simp [hm]

/-- Claim C10: for every (successful) binary-dump load, with `ext = true`
every returned shape's color and radius arrays are empty (the vectors
read from the file are discarded), whereas with `ext = false` the color
and radius vectors read from the file are kept unchanged. -/
theorem claim_C10_objbin_ext_discards_color_radius :
    (∀ (file : yo__binfile), ∀ sh ∈ (yo_load_objbin true file).shapes,
      sh.color = [] ∧ sh.radius = []) ∧
    (∀ (file : yo__binfile) (i : Nat),
      ((yo_load_objbin false file).shapes.get? i).map yo_shape.color
        = (file.shapes.get? i).map yo__binshape.color ∧
      ((yo_load_objbin false file).shapes.get? i).map yo_shape.radius
        = (file.shapes.get? i).map yo__binshape.radius) := by
  constructor
  · intro file sh hsh
    simp only [yo_load_objbin, List.mem_map] at hsh
    obtain ⟨raw, -, rfl⟩ := hsh
    exact ⟨rfl, rfl⟩
  · intro file i
    simp only [yo_load_objbin, List.get?_eq_getElem?]
    cases h : file.shapes[i]? with
    | none => simp [List.getElem?_map, h]
    | some raw => simp [List.getElem?_map, h, yo__binshape_load]

/-- Witness for claim C10: a dump with one shape carrying color and radius
loses both under `ext = true` and keeps both under `ext = false`. -/
theorem claim_C10_witness :
    (((yo_load_objbin true yo__c10_file).shapes.get ⟨0, by decide⟩).color = [] ∧
      ((yo_load_objbin true yo__c10_file).shapes.get ⟨0, by decide⟩).radius = []) ∧
    ((yo_load_objbin false yo__c10_file).shapes.get? 0).map yo_shape.color
      = some [(1, 2, 3)] := by
  constructor
  · exact claim_C10_objbin_ext_discards_color_radius.1 yo__c10_file _
      (List.get_mem _ _ _)
  · rw [(claim_C10_objbin_ext_discards_color_radius.2 yo__c10_file 0).1]
    rfl

lemma yo__run_lengths_encode (runs : List (List Int)) :
    yo__run_lengths (yo__encode_runs runs) = runs.map (fun r => (r.length : Int)) := by
  induction runs with
  | nil => rfl
  | cons r rest ih =>
    show yo__run_lengths (((r.length : Int) :: r) ++ yo__encode_runs rest) = _
    rw [List.cons_append, yo__run_lengths_cons, Int.toNat_ofNat, List.drop_left, ih]
    rfl

lemma yo__compact_encode (L : Nat) (runs : List (List Int))
    (hall : ∀ r ∈ runs, r.length = L) :
    yo__compact L (yo__encode_runs runs) = runs.flatten := by
  induction runs with
  | nil => rfl
  | cons r rest ih =>
    show yo__compact L (((r.length : Int) :: r) ++ yo__encode_runs rest) = _
    have hr : r.length = L := hall r (List.mem_cons_self r rest)
    rw [List.cons_append, yo__compact_cons, ← hr, List.take_left, List.drop_left, hr]
    rw [ih (fun q hq => hall q (List.mem_cons_of_mem _ hq))]
    rfl

lemma yo__foldl_max_const {l : List Int} {L : Int} :
    ∀ {a : Int}, a ≤ L → (∀ z ∈ l, z = L) → l ≠ [] → l.foldl max a = L := by
  induction l with
  | nil => intro a _ _ h; exact absurd rfl h
  | cons z t ih =>
    intro a ha hall _
    have hz : z = L := hall z (List.mem_cons_self z t)
    subst hz
    rw [List.foldl_cons]
    rcases List.eq_nil_or_concat t with ht | ht
    · subst ht
      simpa using ha
    · exact ih (by simp [ha]) (fun q hq => hall q (List.mem_cons_of_mem _ hq))
        (by rcases ht with ⟨u, v, rfl⟩; simp)

lemma yo__foldl_min_const {l : List Int} {L : Int} :
    ∀ {a : Int}, L ≤ a → (∀ z ∈ l, z = L) → l ≠ [] → l.foldl min a = L := by
  induction l with
  | nil => intro a _ _ h; exact absurd rfl h
  | cons z t ih =>
    intro a ha hall _
    have hz : z = L := hall z (List.mem_cons_self z t)
    subst hz
    rw [List.foldl_cons]
    rcases List.eq_nil_or_concat t with ht | ht
    · subst ht
      simpa using ha
    · exact ih (by simp [ha]) (fun q hq => hall q (List.mem_cons_of_mem _ hq))
        (by rcases ht with ⟨u, v, rfl⟩; simp)

lemma yo__le_foldl_max {l : List Int} {z : Int} (hz : z ∈ l) :
    ∀ (a : Int), z ≤ l.foldl max a := by
  induction l with
  | nil => cases hz
  | cons w t ih =>
    intro a
    rw [List.foldl_cons]
    rcases List.mem_cons.mp hz with h | h
    · subst h
      have : z ≤ max a z := le_max_right a z
      calc z ≤ max a z := le_max_right a z
        _ ≤ t.foldl max (max a z) := by
            clear hz ih
            induction t generalizing a with
            | nil => simp
            | cons u v ihv =>
              rw [List.foldl_cons]
              calc max a z ≤ max (max a z) u := le_max_left _ _
                _ ≤ v.foldl max (max (max a z) u) := by
                    have := ihv (a := max a u)
                    simpa [max_assoc, max_comm, max_left_comm] using
                      ihv (a := max a u)
    · exact ih h (max a w)

lemma yo__foldl_min_le {l : List Int} {z : Int} (hz : z ∈ l) :
    ∀ (a : Int), l.foldl min a ≤ z := by
  induction l with
  | nil => cases hz
  | cons w t ih =>
    intro a
    rw [List.foldl_cons]
    rcases List.mem_cons.mp hz with h | h
    · subst h
      calc t.foldl min (min a z) ≤ min a z := by
            clear hz ih
            induction t generalizing a with
            | nil => simp
            | cons u v ihv =>
              rw [List.foldl_cons]
              calc v.foldl min (min (min a z) u) ≤ min (min a z) u := by
                    simpa [min_assoc, min_comm, min_left_comm] using
                      ihv (a := min a u)
                _ ≤ min a z := min_le_left _ _
        _ ≤ z := min_le_right a z
    · exact ih h (min a w)

lemma yo__foldl_min_pos {l : List Int} {a : Int} (ha : 0 < a)
    (hall : ∀ z ∈ l, 0 < z) : 0 < l.foldl min a := by
  induction l generalizing a with
  | nil => simpa using ha
  | cons w t ih =>
    rw [List.foldl_cons]
    exact ih (lt_min ha (hall w (List.mem_cons_self w t)))
      (fun z hz => hall z (List.mem_cons_of_mem _ hz))

lemma yo__encode_runs_ne_nil {runs : List (List Int)} (h : runs ≠ []) :
    yo__encode_runs runs ≠ [] := by
  cases runs with
  | nil => exact absurd rfl h
  | cons r rest => simp [yo__encode_runs]

lemma yo__shape_elems_var_uniform {elem : yo__elemdata}
    (he : elem.etype = yo_etype_polygon ∨ elem.etype = yo_etype_polyline)
    (runs : List (List Int)) (L : Nat) (hel : elem.elem = yo__encode_runs runs)
    (hne : runs ≠ [])
    (hall : ∀ r ∈ runs, r.length = L) (hL0 : 0 < L) (hL3 : L ≤ 3) :
    yo__shape_elems elem = some ((L : Int), (runs.length : Int), runs.flatten) := by
  have hnot : ¬(elem.etype = yo_etype_point ∨ elem.etype = yo_etype_line ∨
      elem.etype = yo_etype_triangle) := by
    rcases he with h | h <;> rw [h] <;> decide
  have hmem : ∀ z ∈ yo__run_lengths (yo__encode_runs runs), z = (L : Int) := by
    rw [yo__run_lengths_encode]
    intro z hz
    obtain ⟨r, hr, rfl⟩ := List.mem_map.mp hz
    rw [hall r hr]
  have hlne : yo__run_lengths (yo__encode_runs runs) ≠ [] := by
    rw [yo__run_lengths_encode]
    simpa using hne
  have hmax : (yo__run_lengths (yo__encode_runs runs)).foldl max (-1) = (L : Int) :=
    yo__foldl_max_const (by omega) hmem hlne
  have hmin : (yo__run_lengths (yo__encode_runs runs)).foldl min 1000000 = (L : Int) :=
    yo__foldl_min_const (by omega) hmem hlne
  unfold yo__shape_elems
  rw [if_neg hnot, if_pos he, hel, hmax, hmin]
  rw [if_neg (by push_cast; omega)]
  rw [if_pos ⟨rfl, by push_cast; omega⟩]
  rw [Int.toNat_ofNat, yo__compact_encode L runs hall, yo__run_lengths_encode,
    List.length_map]

lemma yo__shape_elems_var_mixed {elem : yo__elemdata}
    (he : elem.etype = yo_etype_polygon ∨ elem.etype = yo_etype_polyline)
    (runs : List (List Int)) (hel : elem.elem = yo__encode_runs runs)
    (hne : runs ≠ [])
    (hpos : ∀ r ∈ runs, r ≠ [])
    (hmix : ¬ ∃ L : Int, L < 4 ∧ ∀ r ∈ runs, (r.length : Int) = L) :
    yo__shape_elems elem
      = some (elem.etype, (runs.length : Int), yo__encode_runs runs) := by
  have hnot : ¬(elem.etype = yo_etype_point ∨ elem.etype = yo_etype_line ∨
      elem.etype = yo_etype_triangle) := by
    rcases he with h | h <;> rw [h] <;> decide
  have hmemp : ∀ z ∈ yo__run_lengths (yo__encode_runs runs), 0 < z := by
    rw [yo__run_lengths_encode]
    intro z hz
    obtain ⟨r, hr, rfl⟩ := List.mem_map.mp hz
    have := List.length_pos.mpr (hpos r hr)
    omega
  have hminpos : 0 < (yo__run_lengths (yo__encode_runs runs)).foldl min 1000000 :=
    yo__foldl_min_pos (by omega) hmemp
  have hcond : ¬((yo__run_lengths (yo__encode_runs runs)).foldl min 1000000
        = (yo__run_lengths (yo__encode_runs runs)).foldl max (-1) ∧
      (yo__run_lengths (yo__encode_runs runs)).foldl max (-1) < 4) := by
    rintro ⟨heq, hlt⟩
    apply hmix
    refine ⟨(yo__run_lengths (yo__encode_runs runs)).foldl max (-1), hlt, ?_⟩
    intro r hr
    have hz : ((r.length : Int)) ∈ yo__run_lengths (yo__encode_runs runs) := by
      rw [yo__run_lengths_encode]
      exact List.mem_map.mpr ⟨r, hr, rfl⟩
    have h1 := yo__foldl_min_le hz 1000000
    have h2 := yo__le_foldl_max hz (-1)
    omega
  unfold yo__shape_elems
  rw [if_neg hnot, if_pos he, hel, if_neg (by omega), if_neg hcond,
    yo__run_lengths_encode, List.length_map]

lemma yo__make_shape_elems_part {materials : List yo_material} {n m g : String}
    {x : ym_affine3f} {elem : yo__elemdata} {vert : yo__vertdata} {sh : yo_shape}
    {et ne : Int} {el : List Int}
    (hm : yo__make_shape materials n m g x elem vert = some sh)
    (hse : yo__shape_elems elem = some (et, ne, el)) :
    sh.etype = et ∧ sh.nelems = ne ∧ sh.elem = el := by
  unfold yo__make_shape at hm
  split_ifs at hm
  rw [hse] at hm
  injection hm with hm'
  subst hm'
  exact ⟨rfl, rfl, rfl⟩

/-- Claim C5: a flushed variable-type (polygon/polyline) element buffer
whose runs all have the same length `L` with `0 < L ≤ 3` is emitted with
fixed element type of stride `L`, element buffer with the per-run counts
dropped, and element count equal to the number of runs; with mixed run
lengths (not all equal to some common length `< 4`) the element type and
run-length-encoded buffer are kept unchanged. -/
theorem claim_C5_element_compaction :
    (∀ (shapes : List yo_shape) (materials : List yo_material) (n m g : String)
        (x : ym_affine3f) (vert : yo__vertdata) (vh : yo__vhash) (etype : Int)
        (runs : List (List Int)) (L : Nat)
        (r : List yo_shape × yo__elemdata × yo__vertdata × yo__vhash),
      (etype = yo_etype_polygon ∨ etype = yo_etype_polyline) →
      runs ≠ [] → (∀ run ∈ runs, run.length = L) → 0 < L → L ≤ 3 →
      yo__add_shape shapes materials n m g x
        { etype := etype, elem := yo__encode_runs runs } vert vh = some r →
      ∃ sh, r.1 = shapes ++ [sh] ∧ sh.etype = (L : Int) ∧
        sh.nelems = (runs.length : Int) ∧ sh.elem = runs.flatten) ∧
    (∀ (shapes : List yo_shape) (materials : List yo_material) (n m g : String)
        (x : ym_affine3f) (vert : yo__vertdata) (vh : yo__vhash) (etype : Int)
        (runs : List (List Int))
        (r : List yo_shape × yo__elemdata × yo__vertdata × yo__vhash),
      (etype = yo_etype_polygon ∨ etype = yo_etype_polyline) →
      runs ≠ [] → (∀ run ∈ runs, run ≠ []) →
      (¬ ∃ L : Int, L < 4 ∧ ∀ run ∈ runs, (run.length : Int) = L) →
      yo__add_shape shapes materials n m g x
        { etype := etype, elem := yo__encode_runs runs } vert vh = some r →
      ∃ sh, r.1 = shapes ++ [sh] ∧ sh.etype = etype ∧
        sh.nelems = (runs.length : Int) ∧ sh.elem = yo__encode_runs runs) := by
  constructor
  · intro shapes materials n m g x vert vh etype runs L r he hne hall hL0 hL3 hs
    obtain ⟨sh, hmk, hr⟩ := yo__add_shape_nonempty (yo__encode_runs_ne_nil hne) hs
    have hse := @yo__shape_elems_var_uniform { etype := etype, elem := yo__encode_runs runs }
      he runs L rfl hne hall hL0 hL3
    obtain ⟨h1, h2, h3⟩ := yo__make_shape_elems_part hmk hse
    subst hr
    exact ⟨sh, rfl, h1, h2, h3⟩
  · intro shapes materials n m g x vert vh etype runs r he hne hpos hmix hs
    obtain ⟨sh, hmk, hr⟩ := yo__add_shape_nonempty (yo__encode_runs_ne_nil hne) hs
    have hse := @yo__shape_elems_var_mixed { etype := etype, elem := yo__encode_runs runs }
      he runs rfl hne hpos hmix
    obtain ⟨h1, h2, h3⟩ := yo__make_shape_elems_part hmk hse
    subst hr
    exact ⟨sh, rfl, h1, h2, h3⟩

/-- Witness for claim C5: two 3-vertex polygon runs compact to triangles
with the counts dropped, while a 2-run next to a 3-run stays in the
run-length-encoded polygon form. -/
theorem claim_C5_witness :
    ((yo__c5_r1.1.get? 0).map yo_shape.etype = some 3 ∧
      (yo__c5_r1.1.get? 0).map yo_shape.nelems = some 2 ∧
      (yo__c5_r1.1.get? 0).map yo_shape.elem = some [0, 1, 2, 0, 2, 1]) ∧
    ((yo__c5_r2.1.get? 0).map yo_shape.etype = some 13 ∧
      (yo__c5_r2.1.get? 0).map yo_shape.nelems = some 2 ∧
      (yo__c5_r2.1.get? 0).map yo_shape.elem = some [2, 0, 1, 3, 0, 1, 2]) := by
  constructor
  · obtain ⟨sh, hr, h1, h2, h3⟩ := claim_C5_element_compaction.1 [] [] "" "" ""
      ym_identity_affine3f
      { yo__vertdata_empty with pos := [(0, 0, 0), (1, 0, 0), (1, 1, 0)] }
      yo__vhash_empty 13 [[0, 1, 2], [0, 2, 1]] 3 yo__c5_r1
      (Or.inl rfl) (by simp) (by decide) (by decide) (by decide) rfl
    rw [hr]
    refine ⟨?_, ?_, ?_⟩ <;> simp [h1, h2, h3]
  · have hmix : ¬ ∃ L : Int, L < 4 ∧
        ∀ run ∈ ([[0, 1], [0, 1, 2]] : List (List Int)), ((run.length : Int)) = L := by
      rintro ⟨L, hL4, hallL⟩
      have e1 := hallL [0, 1] (by simp)
      have e2 := hallL [0, 1, 2] (by simp)
      simp at e1 e2
      omega
    obtain ⟨sh, hr, h1, h2, h3⟩ := claim_C5_element_compaction.2 [] [] "" "" ""
      ym_identity_affine3f
      { yo__vertdata_empty with pos := [(0, 0, 0), (1, 0, 0), (1, 1, 0)] }
      yo__vhash_empty 13 [[0, 1], [0, 1, 2]] yo__c5_r2
      (Or.inl rfl) (by simp) (by decide) hmix rfl
    rw [hr]
    refine ⟨?_, ?_, ?_⟩ <;> simp [h1, h2, h3, yo__encode_runs]

lemma yo__encode_append (runs : List (List Int)) (r : List Int) :
    yo__encode_runs (runs ++ [r])
      = yo__encode_runs runs ++ ((r.length : Int) :: r) := by
  induction runs with
  | nil => simp [yo__encode_runs]
  | cons q rest ih =>
    show ((q.length : Int) :: q) ++ yo__encode_runs (rest ++ [r]) = _
    rw [ih]
    simp [yo__encode_runs]

lemma yo__shape_elems_zero_run {elem : yo__elemdata}
    (he : elem.etype = yo_etype_polygon ∨ elem.etype = yo_etype_polyline)
    (runs : List (List Int)) (hel : elem.elem = yo__encode_runs runs)
    (hm : [] ∈ runs) : yo__shape_elems elem = none := by
  have hnot : ¬(elem.etype = yo_etype_point ∨ elem.etype = yo_etype_line ∨
      elem.etype = yo_etype_triangle) := by
    rcases he with h | h <;> rw [h] <;> decide
  have h0 : (0 : Int) ∈ yo__run_lengths (yo__encode_runs runs) := by
    rw [yo__run_lengths_encode]
    exact List.mem_map.mpr ⟨[], hm, rfl⟩
  have hle := yo__foldl_min_le h0 1000000
  unfold yo__shape_elems
  rw [if_neg hnot, if_pos he, hel, if_pos (by omega)]

lemma yo__make_shape_none_of_elems {materials : List yo_material} {n m g : String}
    {x : ym_affine3f} {elem : yo__elemdata} {vert : yo__vertdata}
    (hse : yo__shape_elems elem = none) :
    yo__make_shape materials n m g x elem vert = none := by
  unfold yo__make_shape
  split_ifs <;> try rfl
  rw [hse]

lemma yo__add_shape_none_of_elems {shapes : List yo_shape}
    {materials : List yo_material} {n m g : String} {x : ym_affine3f}
    {elem : yo__elemdata} {vert : yo__vertdata} {vh : yo__vhash}
    (hne : elem.elem ≠ []) (hse : yo__shape_elems elem = none) :
    yo__add_shape shapes materials n m g x elem vert vh = none := by
  unfold yo__add_shape
  rw [if_neg hne, yo__make_shape_none_of_elems hse]

lemma yo__flush_zero_run {s : yo__loadstate}
    (he : s.elem.etype = yo_etype_polygon ∨ s.elem.etype = yo_etype_polyline)
    (runs : List (List Int)) (hel : s.elem.elem = yo__encode_runs runs)
    (hm : [] ∈ runs) : yo__flush s = none := by
  have hne : s.elem.elem ≠ [] := by
    rw [hel]
    exact yo__encode_runs_ne_nil (List.ne_nil_of_mem hm)
  unfold yo__flush
  rw [yo__add_shape_none_of_elems hne (yo__shape_elems_zero_run he runs hel hm)]

lemma yo__verts_loop_elem (ov : yo__vertdata) :
    ∀ (ts : List yo__tok) (vh : yo__vhash) (vert : yo__vertdata) (el : List Int),
      ∃ vids : List Int, (yo__verts_loop ov ts vh vert el).2.2 = el ++ vids ∧
        vids.length = ts.length := by
  intro ts
  induction ts with
  | nil => intro vh vert el; exact ⟨[], by simp [yo__verts_loop], rfl⟩
  | cons tk rest ih =>
    intro vh vert el
    show ∃ vids,
      (yo__verts_loop ov rest (yo__parse_vert tk vh ov).2
        (yo__add_shape_vert vert (yo__parse_vert tk vh ov).1 ov)
        (el ++ [(yo__parse_vert tk vh ov).1.vid])).2.2 = el ++ vids ∧ _
    obtain ⟨vids', h1, h2⟩ := ih (yo__parse_vert tk vh ov).2
      (yo__add_shape_vert vert (yo__parse_vert tk vh ov).1 ov)
      (el ++ [(yo__parse_vert tk vh ov).1.vid])
    exact ⟨(yo__parse_vert tk vh ov).1.vid :: vids', by simp [h1], by simp [h2]⟩

lemma yo__process_append (tri ext : Bool) :
    ∀ (l1 l2 : List yo__record) (s : yo__loadstate),
      yo__process tri ext s (l1 ++ l2)
        = match yo__process tri ext s l1 with
          | none => none
          | some s1 => yo__process tri ext s1 l2 := by
  intro l1
  induction l1 with
  | nil => intro l2 s; rfl
  | cons r rest ih =>
    intro l2 s
    show (match yo__process1 tri ext s r with
          | none => none
          | some s1 => yo__process tri ext s1 (rest ++ l2))
        = match (match yo__process1 tri ext s r with
                 | none => none
                 | some s1 => yo__process tri ext s1 rest) with
          | none => none
          | some s1 => yo__process tri ext s1 l2
    cases yo__process1 tri ext s r with
    | none => rfl
    | some s1 => exact ih l2 s1

lemma yo__zstep {ext : Bool} {s s' : yo__loadstate} {r : yo__record}
    (hz1 : s.elem.etype = yo_etype_polygon ∨ s.elem.etype = yo_etype_polyline)
    (hz2 : ∃ runs, s.elem.elem = yo__encode_runs runs ∧ [] ∈ runs)
    (hp : yo__process1 false ext s r = some s') :
    (s'.elem.etype = yo_etype_polygon ∨ s'.elem.etype = yo_etype_polyline) ∧
    ∃ runs, s'.elem.elem = yo__encode_runs runs ∧ [] ∈ runs := by
  obtain ⟨runs, hel, hmem⟩ := hz2
  have hflne : yo__flush s = none := yo__flush_zero_run hz1 runs hel hmem
  cases r with
  | v x =>
    simp only [yo__process1] at hp
    injection hp with hp
    subst hp
    exact ⟨hz1, runs, hel, hmem⟩
  | vt x =>
    simp only [yo__process1] at hp
    injection hp with hp
    subst hp
    exact ⟨hz1, runs, hel, hmem⟩
  | vn x =>
    simp only [yo__process1] at hp
    injection hp with hp
    subst hp
    exact ⟨hz1, runs, hel, hmem⟩
  | vc x =>
    simp only [yo__process1] at hp
    cases ext with
    | false =>
      rw [if_neg Bool.false_ne_true] at hp
      injection hp with hp
      subst hp
      exact ⟨hz1, runs, hel, hmem⟩
    | true =>
      rw [if_pos rfl] at hp
      injection hp with hp
      subst hp
      exact ⟨hz1, runs, hel, hmem⟩
  | vr x =>
    simp only [yo__process1] at hp
    cases ext with
    | false =>
      rw [if_neg Bool.false_ne_true] at hp
      injection hp with hp
      subst hp
      exact ⟨hz1, runs, hel, hmem⟩
    | true =>
      rw [if_pos rfl] at hp
      injection hp with hp
      subst hp
      exact ⟨hz1, runs, hel, hmem⟩
  | xf m =>
    simp only [yo__process1] at hp
    cases ext with
    | false =>
      rw [if_neg Bool.false_ne_true] at hp
      injection hp with hp
      subst hp
      exact ⟨hz1, runs, hel, hmem⟩
    | true =>
      rw [if_pos rfl] at hp
      injection hp with hp
      subst hp
      exact ⟨hz1, runs, hel, hmem⟩
  | c t1 t2 =>
    simp only [yo__process1] at hp
    cases ext with
    | false =>
      rw [if_neg Bool.false_ne_true] at hp
      injection hp with hp
      subst hp
      exact ⟨hz1, runs, hel, hmem⟩
    | true =>
      rw [if_pos rfl, hflne] at hp
      simp at hp
  | e t1 t2 =>
    simp only [yo__process1] at hp
    cases ext with
    | false =>
      rw [if_neg Bool.false_ne_true] at hp
      injection hp with hp
      subst hp
      exact ⟨hz1, runs, hel, hmem⟩
    | true =>
      rw [if_pos rfl, hflne] at hp
      simp at hp
  | f ts =>
    simp only [yo__process1] at hp
    rw [if_neg Bool.false_ne_true] at hp
    rcases hz1 with h13 | h12
    · have hfi : yo__flush_if_netype yo_etype_polygon s = some s := by
        unfold yo__flush_if_netype
        rw [if_neg (not_not.mpr h13)]
      rw [hfi] at hp
      injection hp with hp
      subst hp
      obtain ⟨vids, hv1, hv2⟩ := yo__verts_loop_elem s.obj_vert ts s.vhash s.vert
        (s.elem.elem ++ [(ts.length : Int)])
      refine ⟨Or.inl rfl, runs ++ [vids], ?_, List.mem_append_left _ hmem⟩
      show (yo__verts_loop s.obj_vert ts s.vhash s.vert
        (s.elem.elem ++ [(ts.length : Int)])).2.2 = _
      rw [hv1, yo__encode_append, hel, ← hv2]
      simp
    · have hfi : yo__flush_if_netype yo_etype_polygon s = none := by
        unfold yo__flush_if_netype
        rw [if_pos (by rw [h12]; decide), hflne]
      rw [hfi] at hp
      simp at hp
  | l ts =>
    simp only [yo__process1] at hp
    rw [if_neg Bool.false_ne_true] at hp
    rcases hz1 with h13 | h12
    · have hfi : yo__flush_if_netype yo_etype_polyline s = none := by
        unfold yo__flush_if_netype
        rw [if_pos (by rw [h13]; decide), hflne]
      rw [hfi] at hp
      simp at hp
    · have hfi : yo__flush_if_netype yo_etype_polyline s = some s := by
        unfold yo__flush_if_netype
        rw [if_neg (not_not.mpr h12)]
      rw [hfi] at hp
      injection hp with hp
      subst hp
      obtain ⟨vids, hv1, hv2⟩ := yo__verts_loop_elem s.obj_vert ts s.vhash s.vert
        (s.elem.elem ++ [(ts.length : Int)])
      refine ⟨Or.inr rfl, runs ++ [vids], ?_, List.mem_append_left _ hmem⟩
      show (yo__verts_loop s.obj_vert ts s.vhash s.vert
        (s.elem.elem ++ [(ts.length : Int)])).2.2 = _
      rw [hv1, yo__encode_append, hel, ← hv2]
      simp
  | p ts =>
    simp only [yo__process1] at hp
    have hfi : yo__flush_if_netype yo_etype_point s = none := by
      unfold yo__flush_if_netype
      rw [if_pos (by rcases hz1 with h | h <;> rw [h] <;> decide), hflne]
    rw [hfi] at hp
    simp at hp
  | o oname =>
    simp only [yo__process1] at hp
    rw [hflne] at hp
    simp at hp
  | g gname =>
    simp only [yo__process1] at hp
    rw [hflne] at hp
    simp at hp
  | usemtl mname =>
    simp only [yo__process1] at hp
    rw [hflne] at hp
    simp at hp
  | mtllib mats =>
    simp only [yo__process1] at hp
    injection hp with hp
    subst hp
    exact ⟨hz1, runs, hel, hmem⟩

lemma yo__flush_elem_nil {s s1 : yo__loadstate} (hf : yo__flush s = some s1) :
    s1.elem.elem = [] := by
  by_cases h : s.elem.elem = []
  · rw [yo__flush_empty h] at hf
    injection hf with hf
    subst hf
    exact h
  · obtain ⟨sh, _, hs1⟩ := yo__flush_nonempty h hf
    subst hs1
    rfl

lemma yo__wfstep {ext : Bool} {s s' : yo__loadstate} {r : yo__record}
    (hwf : (s.elem.etype = yo_etype_polygon ∨ s.elem.etype = yo_etype_polyline) →
      ∃ runs, s.elem.elem = yo__encode_runs runs)
    (hp : yo__process1 false ext s r = some s') :
    (s'.elem.etype = yo_etype_polygon ∨ s'.elem.etype = yo_etype_polyline) →
      ∃ runs, s'.elem.elem = yo__encode_runs runs := by
  cases r with
  | v x =>
    simp only [yo__process1] at hp
    injection hp with hp
    subst hp
    exact hwf
  | vt x =>
    simp only [yo__process1] at hp
    injection hp with hp
    subst hp
    exact hwf
  | vn x =>
    simp only [yo__process1] at hp
    injection hp with hp
    subst hp
    exact hwf
  | vc x =>
    simp only [yo__process1] at hp
    cases ext with
    | false =>
      rw [if_neg Bool.false_ne_true] at hp
      injection hp with hp
      subst hp
      exact hwf
    | true =>
      rw [if_pos rfl] at hp
      injection hp with hp
      subst hp
      exact hwf
  | vr x =>
    simp only [yo__process1] at hp
    cases ext with
    | false =>
      rw [if_neg Bool.false_ne_true] at hp
      injection hp with hp
      subst hp
      exact hwf
    | true =>
      rw [if_pos rfl] at hp
      injection hp with hp
      subst hp
      exact hwf
  | xf m =>
    simp only [yo__process1] at hp
    cases ext with
    | false =>
      rw [if_neg Bool.false_ne_true] at hp
      injection hp with hp
      subst hp
      exact hwf
    | true =>
      rw [if_pos rfl] at hp
      injection hp with hp
      subst hp
      exact hwf
  | c t1 t2 =>
    simp only [yo__process1] at hp
    cases ext with
    | false =>
      rw [if_neg Bool.false_ne_true] at hp
      injection hp with hp
      subst hp
      exact hwf
    | true =>
      rw [if_pos rfl] at hp
      cases hfl : yo__flush s with
      | none => rw [hfl] at hp; simp at hp
      | some s1 =>
        rw [hfl] at hp
        injection hp with hp
        subst hp
        intro _
        exact ⟨[], by rw [yo__flush_elem_nil hfl]; rfl⟩
  | e t1 t2 =>
    simp only [yo__process1] at hp
    cases ext with
    | false =>
      rw [if_neg Bool.false_ne_true] at hp
      injection hp with hp
      subst hp
      exact hwf
    | true =>
      rw [if_pos rfl] at hp
      cases hfl : yo__flush s with
      | none => rw [hfl] at hp; simp at hp
      | some s1 =>
        rw [hfl] at hp
        injection hp with hp
        subst hp
        intro _
        exact ⟨[], by rw [yo__flush_elem_nil hfl]; rfl⟩
  | f ts =>
    simp only [yo__process1] at hp
    rw [if_neg Bool.false_ne_true] at hp
    by_cases h13 : s.elem.etype = yo_etype_polygon
    · have hfi : yo__flush_if_netype yo_etype_polygon s = some s := by
        unfold yo__flush_if_netype
        rw [if_neg (not_not.mpr h13)]
      rw [hfi] at hp
      injection hp with hp
      subst hp
      intro _
      obtain ⟨runs, hel⟩ := hwf (Or.inl h13)
      obtain ⟨vids, hv1, hv2⟩ := yo__verts_loop_elem s.obj_vert ts s.vhash s.vert
        (s.elem.elem ++ [(ts.length : Int)])
      refine ⟨runs ++ [vids], ?_⟩
      show (yo__verts_loop s.obj_vert ts s.vhash s.vert
        (s.elem.elem ++ [(ts.length : Int)])).2.2 = _
      rw [hv1, yo__encode_append, hel, ← hv2]
      simp
    · have hfi : yo__flush_if_netype yo_etype_polygon s = yo__flush s := by
        unfold yo__flush_if_netype
        rw [if_pos h13]
      rw [hfi] at hp
      cases hfl : yo__flush s with
      | none => rw [hfl] at hp; simp at hp
      | some s1 =>
        rw [hfl] at hp
        injection hp with hp
        subst hp
        intro _
        obtain ⟨vids, hv1, hv2⟩ := yo__verts_loop_elem s1.obj_vert ts s1.vhash s1.vert
          (s1.elem.elem ++ [(ts.length : Int)])
        refine ⟨[vids], ?_⟩
        show (yo__verts_loop s1.obj_vert ts s1.vhash s1.vert
          (s1.elem.elem ++ [(ts.length : Int)])).2.2 = _
        rw [hv1, yo__flush_elem_nil hfl, ← hv2]
        simp [yo__encode_runs]
  | l ts =>
    simp only [yo__process1] at hp
    rw [if_neg Bool.false_ne_true] at hp
    by_cases h12 : s.elem.etype = yo_etype_polyline
    · have hfi : yo__flush_if_netype yo_etype_polyline s = some s := by
        unfold yo__flush_if_netype
        rw [if_neg (not_not.mpr h12)]
      rw [hfi] at hp
      injection hp with hp
      subst hp
      intro _
      obtain ⟨runs, hel⟩ := hwf (Or.inr h12)
      obtain ⟨vids, hv1, hv2⟩ := yo__verts_loop_elem s.obj_vert ts s.vhash s.vert
        (s.elem.elem ++ [(ts.length : Int)])
      refine ⟨runs ++ [vids], ?_⟩
      show (yo__verts_loop s.obj_vert ts s.vhash s.vert
        (s.elem.elem ++ [(ts.length : Int)])).2.2 = _
      rw [hv1, yo__encode_append, hel, ← hv2]
      simp
    · have hfi : yo__flush_if_netype yo_etype_polyline s = yo__flush s := by
        unfold yo__flush_if_netype
        rw [if_pos h12]
      rw [hfi] at hp
      cases hfl : yo__flush s with
      | none => rw [hfl] at hp; simp at hp
      | some s1 =>
        rw [hfl] at hp
        injection hp with hp
        subst hp
        intro _
        obtain ⟨vids, hv1, hv2⟩ := yo__verts_loop_elem s1.obj_vert ts s1.vhash s1.vert
          (s1.elem.elem ++ [(ts.length : Int)])
        refine ⟨[vids], ?_⟩
        show (yo__verts_loop s1.obj_vert ts s1.vhash s1.vert
          (s1.elem.elem ++ [(ts.length : Int)])).2.2 = _
        rw [hv1, yo__flush_elem_nil hfl, ← hv2]
        simp [yo__encode_runs]
  | p ts =>
    simp only [yo__process1] at hp
    cases hfi : yo__flush_if_netype yo_etype_point s with
    | none => rw [hfi] at hp; simp at hp
    | some s1 =>
      rw [hfi] at hp
      injection hp with hp
      subst hp
      intro h
      exact absurd
        (show yo_etype_point = yo_etype_polygon ∨ yo_etype_point = yo_etype_polyline from h)
        (by decide)
  | o oname =>
    simp only [yo__process1] at hp
    cases hfl : yo__flush s with
    | none => rw [hfl] at hp; simp at hp
    | some s1 =>
      rw [hfl] at hp
      injection hp with hp
      subst hp
      intro _
      exact ⟨[], by rw [yo__flush_elem_nil hfl]; rfl⟩
  | g gname =>
    simp only [yo__process1] at hp
    cases hfl : yo__flush s with
    | none => rw [hfl] at hp; simp at hp
    | some s1 =>
      rw [hfl] at hp
      injection hp with hp
      subst hp
      intro _
      exact ⟨[], by rw [yo__flush_elem_nil hfl]; rfl⟩
  | usemtl mname =>
    simp only [yo__process1] at hp
    cases hfl : yo__flush s with
    | none => rw [hfl] at hp; simp at hp
    | some s1 =>
      rw [hfl] at hp
      injection hp with hp
      subst hp
      intro _
      exact ⟨[], by rw [yo__flush_elem_nil hfl]; rfl⟩
  | mtllib mats =>
    simp only [yo__process1] at hp
    injection hp with hp
    subst hp
    exact hwf

lemma yo__zinit {ext : Bool} {s s' : yo__loadstate} {r0 : yo__record}
    (hwf : (s.elem.etype = yo_etype_polygon ∨ s.elem.etype = yo_etype_polyline) →
      ∃ runs, s.elem.elem = yo__encode_runs runs)
    (hr : r0 = yo__record.f [] ∨ r0 = yo__record.l [])
    (hp : yo__process1 false ext s r0 = some s') :
    (s'.elem.etype = yo_etype_polygon ∨ s'.elem.etype = yo_etype_polyline) ∧
    ∃ runs, s'.elem.elem = yo__encode_runs runs ∧ [] ∈ runs := by
  rcases hr with hr | hr <;> subst hr
  · simp only [yo__process1] at hp
    rw [if_neg Bool.false_ne_true] at hp
    by_cases h13 : s.elem.etype = yo_etype_polygon
    · have hfi : yo__flush_if_netype yo_etype_polygon s = some s := by
        unfold yo__flush_if_netype
        rw [if_neg (not_not.mpr h13)]
      rw [hfi] at hp
      injection hp with hp
      subst hp
      obtain ⟨runs, hel⟩ := hwf (Or.inl h13)
      refine ⟨Or.inl rfl, runs ++ [[]], ?_, List.mem_append_right _ (by simp)⟩
      show (yo__verts_loop s.obj_vert [] s.vhash s.vert
        (s.elem.elem ++ [(([] : List yo__tok).length : Int)])).2.2 = _
      show s.elem.elem ++ [(0 : Int)] = _
      rw [hel, yo__encode_append]
      rfl
    · have hfi : yo__flush_if_netype yo_etype_polygon s = yo__flush s := by
        unfold yo__flush_if_netype
        rw [if_pos h13]
      rw [hfi] at hp
      cases hfl : yo__flush s with
      | none => rw [hfl] at hp; simp at hp
      | some s1 =>
        rw [hfl] at hp
        injection hp with hp
        subst hp
        refine ⟨Or.inl rfl, [[]], ?_, by simp⟩
        show (yo__verts_loop s1.obj_vert [] s1.vhash s1.vert
          (s1.elem.elem ++ [(([] : List yo__tok).length : Int)])).2.2 = _
        show s1.elem.elem ++ [(0 : Int)] = _
        rw [yo__flush_elem_nil hfl]
        rfl
  · simp only [yo__process1] at hp
    rw [if_neg Bool.false_ne_true] at hp
    by_cases h12 : s.elem.etype = yo_etype_polyline
    · have hfi : yo__flush_if_netype yo_etype_polyline s = some s := by
        unfold yo__flush_if_netype
        rw [if_neg (not_not.mpr h12)]
      rw [hfi] at hp
      injection hp with hp
      subst hp
      obtain ⟨runs, hel⟩ := hwf (Or.inr h12)
      refine ⟨Or.inr rfl, runs ++ [[]], ?_, List.mem_append_right _ (by simp)⟩
      show (yo__verts_loop s.obj_vert [] s.vhash s.vert
        (s.elem.elem ++ [(([] : List yo__tok).length : Int)])).2.2 = _
      show s.elem.elem ++ [(0 : Int)] = _
      rw [hel, yo__encode_append]
      rfl
    · have hfi : yo__flush_if_netype yo_etype_polyline s = yo__flush s := by
        unfold yo__flush_if_netype
        rw [if_pos h12]
      rw [hfi] at hp
      cases hfl : yo__flush s with
      | none => rw [hfl] at hp; simp at hp
      | some s1 =>
        rw [hfl] at hp
        injection hp with hp
        subst hp
        refine ⟨Or.inr rfl, [[]], ?_, by simp⟩
        show (yo__verts_loop s1.obj_vert [] s1.vhash s1.vert
          (s1.elem.elem ++ [(([] : List yo__tok).length : Int)])).2.2 = _
        show s1.elem.elem ++ [(0 : Int)] = _
        rw [yo__flush_elem_nil hfl]
        rfl

lemma yo__process_wf (ext : Bool) :
    ∀ (records : List yo__record) (s s' : yo__loadstate),
      ((s.elem.etype = yo_etype_polygon ∨ s.elem.etype = yo_etype_polyline) →
        ∃ runs, s.elem.elem = yo__encode_runs runs) →
      yo__process false ext s records = some s' →
      (s'.elem.etype = yo_etype_polygon ∨ s'.elem.etype = yo_etype_polyline) →
        ∃ runs, s'.elem.elem = yo__encode_runs runs := by
  intro records
  induction records with
  | nil =>
    intro s s' hwf hp
    injection hp with hp
    subst hp
    exact hwf
  | cons r rest ih =>
    intro s s' hwf hp
    unfold yo__process at hp
    cases h1 : yo__process1 false ext s r with
    | none => rw [h1] at hp; simp at hp
    | some s1 =>
      rw [h1] at hp
      exact ih s1 s' (yo__wfstep hwf h1) hp

lemma yo__process_z (ext : Bool) :
    ∀ (records : List yo__record) (s : yo__loadstate),
      (s.elem.etype = yo_etype_polygon ∨ s.elem.etype = yo_etype_polyline) →
      (∃ runs, s.elem.elem = yo__encode_runs runs ∧ [] ∈ runs) →
      yo__process false ext s records = none ∨
      ∃ s', yo__process false ext s records = some s' ∧
        (s'.elem.etype = yo_etype_polygon ∨ s'.elem.etype = yo_etype_polyline) ∧
        ∃ runs, s'.elem.elem = yo__encode_runs runs ∧ [] ∈ runs := by
  intro records
  induction records with
  | nil =>
    intro s hz1 hz2
    exact Or.inr ⟨s, rfl, hz1, hz2⟩
  | cons r rest ih =>
    intro s hz1 hz2
    unfold yo__process
    cases h1 : yo__process1 false ext s r with
    | none => exact Or.inl rfl
    | some s1 =>
      obtain ⟨hz1', hz2'⟩ := yo__zstep hz1 hz2 h1
      exact ih s1 hz1' hz2'

/-- Claim C7: a variable-type element buffer containing a zero-length run
is rejected: the flush itself fails (embedding `assert(minf > 0)`), and a
load whose input contains a zero-vertex polygon (`f` with no vertices) or
polyline (`l` with no vertices) record fails as a whole — no partial
scene is returned, and the degenerate run is never silently skipped. -/
theorem claim_C7_zero_run_rejection :
    (∀ (shapes : List yo_shape) (materials : List yo_material) (n m g : String)
        (x : ym_affine3f) (vert : yo__vertdata) (vh : yo__vhash) (etype : Int)
        (runs : List (List Int)),
      (etype = yo_etype_polygon ∨ etype = yo_etype_polyline) → [] ∈ runs →
      yo__add_shape shapes materials n m g x
        { etype := etype, elem := yo__encode_runs runs } vert vh = none) ∧
    (∀ (pre post : List yo__record) (ext : Bool) (r0 : yo__record),
      (r0 = yo__record.f [] ∨ r0 = yo__record.l []) →
      yo_load_obj (pre ++ r0 :: post) false ext = none) := by
  constructor
  · intro shapes materials n m g x vert vh etype runs he hm
    exact yo__add_shape_none_of_elems
      (yo__encode_runs_ne_nil (List.ne_nil_of_mem hm))
      (yo__shape_elems_zero_run he runs rfl hm)
  · intro pre post ext r0 hr
    have key : yo__process false ext yo__init_state (pre ++ r0 :: post) = none ∨
        ∃ send, yo__process false ext yo__init_state (pre ++ r0 :: post) = some send ∧
          yo__flush send = none := by
      rw [yo__process_append]
      cases hpre : yo__process false ext yo__init_state pre with
      | none => exact Or.inl rfl
      | some spre =>
        have hwf := yo__process_wf ext pre yo__init_state spre
          (fun h => absurd
            (show yo_etype_null = yo_etype_polygon ∨ yo_etype_null = yo_etype_polyline from h)
            (by decide)) hpre
        show yo__process false ext spre (r0 :: post) = none ∨
          ∃ send, yo__process false ext spre (r0 :: post) = some send ∧
            yo__flush send = none
        unfold yo__process
        cases h0 : yo__process1 false ext spre r0 with
        | none => exact Or.inl rfl
        | some s0 =>
          obtain ⟨hz1, hz2⟩ := yo__zinit hwf hr h0
          show yo__process false ext s0 post = none ∨
            ∃ send, yo__process false ext s0 post = some send ∧ yo__flush send = none
          rcases yo__process_z ext post s0 hz1 hz2 with hnone |
            ⟨send, hsome, hz1e, runsE, helE, hmemE⟩
          · rw [hnone]
            exact Or.inl rfl
          · rw [hsome]
            exact Or.inr ⟨send, rfl, yo__flush_zero_run hz1e runsE helE hmemE⟩
    rcases key with hk | ⟨send, hk, hfl⟩
    · simp [yo_load_obj, hk]
    · simp [yo_load_obj, hk, hfl]

/-- Witness for claim C7: flushing a single zero-length polygon run fails,
and a load containing a vertexless `f` record fails as a whole. -/
theorem claim_C7_witness :
    (yo__add_shape [] [] "" "" "" ym_identity_affine3f
        { etype := yo_etype_polygon, elem := yo__encode_runs [[]] }
        yo__vertdata_empty yo__vhash_empty = none) ∧
    yo_load_obj ([yo__record.v (0, 0, 0)] ++ yo__record.f [] :: []) false false = none := by
  constructor
  · exact claim_C7_zero_run_rejection.1 [] [] "" "" "" ym_identity_affine3f
      yo__vertdata_empty yo__vhash_empty yo_etype_polygon [[]] (Or.inl rfl) (by simp)
  · exact claim_C7_zero_run_rejection.2 [yo__record.v (0, 0, 0)] [] false _ (Or.inl rfl)

lemma yo__make_shape_arrays_ok {materials : List yo_material} {n m g : String}
    {x : ym_affine3f} {elem : yo__elemdata} {vert : yo__vertdata} {sh : yo_shape}
    (hm : yo__make_shape materials n m g x elem vert = some sh) :
    yo__shape_arrays_ok sh := by
  obtain ⟨-, -, -, -, hnv, hpos, hnorm, htex, hcol, hrad, a1, a2, a3, a4⟩ :=
    yo__make_shape_fields hm
  refine ⟨?_, ?_, ?_, ?_, ?_⟩
  · rw [hpos, hnv]; exact Or.inl rfl
  · rw [hnorm, hnv]; exact a1
  · rw [htex, hnv]; exact a2
  · rw [hcol, hnv]; exact a3
  · rw [hrad, hnv]; exact a4

lemma yo__flush_shapes {s s1 : yo__loadstate} (hf : yo__flush s = some s1) :
    s1.shapes = s.shapes ∨
    ∃ sh, s1.shapes = s.shapes ++ [sh] ∧ yo__shape_arrays_ok sh := by
  by_cases h : s.elem.elem = []
  · rw [yo__flush_empty h] at hf
    injection hf with hf
    subst hf
    exact Or.inl rfl
  · obtain ⟨sh, hmk, hs1⟩ := yo__flush_nonempty h hf
    subst hs1
    exact Or.inr ⟨sh, rfl, yo__make_shape_arrays_ok hmk⟩

lemma yo__flush_if_shapes {etype : Int} {s s1 : yo__loadstate}
    (hf : yo__flush_if_netype etype s = some s1) :
    s1.shapes = s.shapes ∨
    ∃ sh, s1.shapes = s.shapes ++ [sh] ∧ yo__shape_arrays_ok sh := by
  unfold yo__flush_if_netype at hf
  split_ifs at hf with h
  · exact yo__flush_shapes hf
  · injection hf with hf
    subst hf
    exact Or.inl rfl

lemma yo__p1_shapes {tri ext : Bool} {s s' : yo__loadstate} {r : yo__record}
    (hp : yo__process1 tri ext s r = some s') :
    s'.shapes = s.shapes ∨
    ∃ sh, s'.shapes = s.shapes ++ [sh] ∧ yo__shape_arrays_ok sh := by
  cases r with
  | v x =>
    simp only [yo__process1] at hp
    injection hp with hp
    subst hp
    exact Or.inl rfl
  | vt x =>
    simp only [yo__process1] at hp
    injection hp with hp
    subst hp
    exact Or.inl rfl
  | vn x =>
    simp only [yo__process1] at hp
    injection hp with hp
    subst hp
    exact Or.inl rfl
  | vc x =>
    simp only [yo__process1] at hp
    cases ext with
    | false =>
      rw [if_neg Bool.false_ne_true] at hp
      injection hp with hp
      subst hp
      exact Or.inl rfl
    | true =>
      rw [if_pos rfl] at hp
      injection hp with hp
      subst hp
      exact Or.inl rfl
  | vr x =>
    simp only [yo__process1] at hp
    cases ext with
    | false =>
      rw [if_neg Bool.false_ne_true] at hp
      injection hp with hp
      subst hp
      exact Or.inl rfl
    | true =>
      rw [if_pos rfl] at hp
      injection hp with hp
      subst hp
      exact Or.inl rfl
  | xf m =>
    simp only [yo__process1] at hp
    cases ext with
    | false =>
      rw [if_neg Bool.false_ne_true] at hp
      injection hp with hp
      subst hp
      exact Or.inl rfl
    | true =>
      rw [if_pos rfl] at hp
      injection hp with hp
      subst hp
      exact Or.inl rfl
  | c t1 t2 =>
    simp only [yo__process1] at hp
    cases ext with
    | false =>
      rw [if_neg Bool.false_ne_true] at hp
      injection hp with hp
      subst hp
      exact Or.inl rfl
    | true =>
      rw [if_pos rfl] at hp
      cases hfl : yo__flush s with
      | none => rw [hfl] at hp; simp at hp
      | some s1 =>
        rw [hfl] at hp
        injection hp with hp
        subst hp
        show s1.shapes = s.shapes ∨
          ∃ sh, s1.shapes = s.shapes ++ [sh] ∧ yo__shape_arrays_ok sh
        exact yo__flush_shapes hfl
  | e t1 t2 =>
    simp only [yo__process1] at hp
    cases ext with
    | false =>
      rw [if_neg Bool.false_ne_true] at hp
      injection hp with hp
      subst hp
      exact Or.inl rfl
    | true =>
      rw [if_pos rfl] at hp
      cases hfl : yo__flush s with
      | none => rw [hfl] at hp; simp at hp
      | some s1 =>
        rw [hfl] at hp
        injection hp with hp
        subst hp
        show s1.shapes = s.shapes ∨
          ∃ sh, s1.shapes = s.shapes ++ [sh] ∧ yo__shape_arrays_ok sh
        exact yo__flush_shapes hfl
  | f ts =>
    simp only [yo__process1] at hp
    cases tri with
    | false =>
      rw [if_neg Bool.false_ne_true] at hp
      cases hfi : yo__flush_if_netype yo_etype_polygon s with
      | none => rw [hfi] at hp; simp at hp
      | some s1 =>
        rw [hfi] at hp
        injection hp with hp
        subst hp
        show s1.shapes = s.shapes ∨
          ∃ sh, s1.shapes = s.shapes ++ [sh] ∧ yo__shape_arrays_ok sh
        exact yo__flush_if_shapes hfi
    | true =>
      rw [if_pos rfl] at hp
      cases hfi : yo__flush_if_netype yo_etype_triangle s with
      | none => rw [hfi] at hp; simp at hp
      | some s1 =>
        rw [hfi] at hp
        injection hp with hp
        subst hp
        show s1.shapes = s.shapes ∨
          ∃ sh, s1.shapes = s.shapes ++ [sh] ∧ yo__shape_arrays_ok sh
        exact yo__flush_if_shapes hfi
  | l ts =>
    simp only [yo__process1] at hp
    cases tri with
    | false =>
      rw [if_neg Bool.false_ne_true] at hp
      cases hfi : yo__flush_if_netype yo_etype_polyline s with
      | none => rw [hfi] at hp; simp at hp
      | some s1 =>
        rw [hfi] at hp
        injection hp with hp
        subst hp
        show s1.shapes = s.shapes ∨
          ∃ sh, s1.shapes = s.shapes ++ [sh] ∧ yo__shape_arrays_ok sh
        exact yo__flush_if_shapes hfi
    | true =>
      rw [if_pos rfl] at hp
      cases hfi : yo__flush_if_netype yo_etype_line s with
      | none => rw [hfi] at hp; simp at hp
      | some s1 =>
        rw [hfi] at hp
        injection hp with hp
        subst hp
        show s1.shapes = s.shapes ∨
          ∃ sh, s1.shapes = s.shapes ++ [sh] ∧ yo__shape_arrays_ok sh
        exact yo__flush_if_shapes hfi
  | p ts =>
    simp only [yo__process1] at hp
    cases hfi : yo__flush_if_netype yo_etype_point s with
    | none => rw [hfi] at hp; simp at hp
    | some s1 =>
      rw [hfi] at hp
      injection hp with hp
      subst hp
      show s1.shapes = s.shapes ∨
        ∃ sh, s1.shapes = s.shapes ++ [sh] ∧ yo__shape_arrays_ok sh
      exact yo__flush_if_shapes hfi
  | o oname =>
    simp only [yo__process1] at hp
    cases hfl : yo__flush s with
    | none => rw [hfl] at hp; simp at hp
    | some s1 =>
      rw [hfl] at hp
      injection hp with hp
      subst hp
      show s1.shapes = s.shapes ∨
        ∃ sh, s1.shapes = s.shapes ++ [sh] ∧ yo__shape_arrays_ok sh
      exact yo__flush_shapes hfl
  | g gname =>
    simp only [yo__process1] at hp
    cases hfl : yo__flush s with
    | none => rw [hfl] at hp; simp at hp
    | some s1 =>
      rw [hfl] at hp
      injection hp with hp
      subst hp
      show s1.shapes = s.shapes ∨
        ∃ sh, s1.shapes = s.shapes ++ [sh] ∧ yo__shape_arrays_ok sh
      exact yo__flush_shapes hfl
  | usemtl mname =>
    simp only [yo__process1] at hp
    cases hfl : yo__flush s with
    | none => rw [hfl] at hp; simp at hp
    | some s1 =>
      rw [hfl] at hp
      injection hp with hp
      subst hp
      show s1.shapes = s.shapes ∨
        ∃ sh, s1.shapes = s.shapes ++ [sh] ∧ yo__shape_arrays_ok sh
      exact yo__flush_shapes hfl
  | mtllib mats =>
    simp only [yo__process1] at hp
    injection hp with hp
    subst hp
    exact Or.inl rfl

lemma yo__process_shapes_ok (tri ext : Bool) :
    ∀ (records : List yo__record) (s s' : yo__loadstate),
      (∀ sh ∈ s.shapes, yo__shape_arrays_ok sh) →
      yo__process tri ext s records = some s' →
      ∀ sh ∈ s'.shapes, yo__shape_arrays_ok sh := by
  intro records
  induction records with
  | nil =>
    intro s s' hok hp
    injection hp with hp
    subst hp
    exact hok
  | cons r rest ih =>
    intro s s' hok hp
    unfold yo__process at hp
    cases h1 : yo__process1 tri ext s r with
    | none => rw [h1] at hp; simp at hp
    | some s1 =>
      rw [h1] at hp
      refine ih s1 s' ?_ hp
      rcases yo__p1_shapes h1 with he | ⟨sh, he, hsh⟩
      · rw [he]; exact hok
      · rw [he]
        intro q hq
        rcases List.mem_append.mp hq with hq | hq
        · exact hok q hq
        · rw [List.mem_singleton.mp hq]
          exact hsh

/-- Claim C3: every shape emitted by `yo_load_obj` has each per-vertex
array (pos, norm, texcoord, color, radius) either completely empty or of
length exactly the shape's `nverts`, for every input record list —
including inputs whose vertex triplets mention different attribute
subsets within one shape (such inputs fail the embedded asserts and thus
the whole load, so they never emit an irregular shape). -/
theorem claim_C3_vertex_array_invariant (records : List yo__record)
    (tri ext : Bool) (sc : yo_scene) (hload : yo_load_obj records tri ext = some sc) :
    ∀ sh ∈ sc.shapes,
      ((sh.pos.length : Int) = sh.nverts ∨ sh.pos = []) ∧
      ((sh.norm.length : Int) = sh.nverts ∨ sh.norm = []) ∧
      ((sh.texcoord.length : Int) = sh.nverts ∨ sh.texcoord = []) ∧
      ((sh.color.length : Int) = sh.nverts ∨ sh.color = []) ∧
      ((sh.radius.length : Int) = sh.nverts ∨ sh.radius = []) := by
  unfold yo_load_obj at hload
  cases hpr : yo__process tri ext yo__init_state records with
  | none => rw [hpr] at hload; simp at hload
  | some s =>
    rw [hpr] at hload
    have hload' : (match yo__flush s with
        | none => none
        | some s' => some (⟨s'.shapes, s'.materials, s'.textures, s'.cameras,
            s'.envs⟩ : yo_scene)) = some sc := hload
    clear hload
    cases hfl : yo__flush s with
    | none => rw [hfl] at hload'; simp at hload'
    | some s' =>
      rw [hfl] at hload'
      injection hload' with hload'
      subst hload'
      intro sh hsh
      have hsok := yo__process_shapes_ok tri ext records yo__init_state s
        (by intro q hq; simp [yo__init_state] at hq) hpr
      have hsok' : ∀ q ∈ s'.shapes, yo__shape_arrays_ok q := by
        rcases yo__flush_shapes hfl with he | ⟨q0, he, hq0⟩
        · rw [he]; exact hsok
        · rw [he]
          intro q hq
          rcases List.mem_append.mp hq with hq | hq
          · exact hsok q hq
          · rw [List.mem_singleton.mp hq]
            exact hq0
      exact hsok' sh hsh

/-- Witness for claim C3 at a load whose single shape has positions and
texcoords but no normals, colors or radii. -/
theorem claim_C3_witness :
    ((((yo__c3_scene.shapes.get ⟨0, by decide⟩).pos.length : Int)
        = (yo__c3_scene.shapes.get ⟨0, by decide⟩).nverts ∨
      (yo__c3_scene.shapes.get ⟨0, by decide⟩).pos = []) ∧
     (((yo__c3_scene.shapes.get ⟨0, by decide⟩).norm.length : Int)
        = (yo__c3_scene.shapes.get ⟨0, by decide⟩).nverts ∨
      (yo__c3_scene.shapes.get ⟨0, by decide⟩).norm = []) ∧
     (((yo__c3_scene.shapes.get ⟨0, by decide⟩).texcoord.length : Int)
        = (yo__c3_scene.shapes.get ⟨0, by decide⟩).nverts ∨
      (yo__c3_scene.shapes.get ⟨0, by decide⟩).texcoord = []) ∧
     (((yo__c3_scene.shapes.get ⟨0, by decide⟩).color.length : Int)
        = (yo__c3_scene.shapes.get ⟨0, by decide⟩).nverts ∨
      (yo__c3_scene.shapes.get ⟨0, by decide⟩).color = []) ∧
     (((yo__c3_scene.shapes.get ⟨0, by decide⟩).radius.length : Int)
        = (yo__c3_scene.shapes.get ⟨0, by decide⟩).nverts ∨
      (yo__c3_scene.shapes.get ⟨0, by decide⟩).radius = [])) :=
  claim_C3_vertex_array_invariant yo__c3_records false false yo__c3_scene rfl
    (yo__c3_scene.shapes.get ⟨0, by decide⟩) (List.get_mem _ _ _)

lemma yo__vids_of_length (ov : yo__vertdata) :
    ∀ (ts : List yo__tok) (vh : yo__vhash), (yo__vids_of ov vh ts).length = ts.length := by
  intro ts
  induction ts with
  | nil => intro vh; rfl
  | cons tk rest ih =>
    intro vh
    show ((yo__parse_vert tk vh ov).1.vid :: _).length = _
    rw [List.length_cons, ih]
    rfl

lemma yo__fan_triples_length (vi0 : Int) :
    ∀ (ws : List Int) (prev : Int), (yo__fan_triples vi0 prev ws).length = 3 * ws.length := by
  intro ws
  induction ws with
  | nil => intro prev; rfl
  | cons w ws' ih =>
    intro prev
    show (vi0 :: prev :: w :: yo__fan_triples vi0 w ws').length = _
    simp only [List.length_cons, ih]
    omega

lemma yo__fan_triples_get (vi0 : Int) :
    ∀ (ws : List Int) (prev : Int) (k : Nat), k < ws.length →
      (yo__fan_triples vi0 prev ws).get? (3 * k) = some vi0 := by
  intro ws
  induction ws with
  | nil => intro prev k h; simp at h
  | cons w ws' ih =>
    intro prev k h
    cases k with
    | zero => rfl
    | succ k' =>
      show (vi0 :: prev :: w :: yo__fan_triples vi0 w ws').get? (3 * (k' + 1)) = some vi0
      have h3 : 3 * (k' + 1) = 3 * k' + 1 + 1 + 1 := by omega
      rw [h3, List.get?_cons_succ, List.get?_cons_succ, List.get?_cons_succ]
      exact ih w k' (by simpa using Nat.lt_of_succ_lt_succ h)

lemma yo__f_tri_loop_fan (ov : yo__vertdata) :
    ∀ (rest : List yo__tok) (t : Nat) (vi0 : Int) (vh : yo__vhash)
      (vt : yo__vertdata) (e : List Int) (p : Int), 3 < t →
      (yo__f_tri_loop ov rest t vi0 vh vt (e ++ [p])).2.2
        = (e ++ [p]) ++ yo__fan_triples vi0 p (yo__vids_of ov vh rest) := by
  intro rest
  induction rest with
  | nil =>
    intro t vi0 vh vt e p ht
    show e ++ [p] = (e ++ [p]) ++ yo__fan_triples vi0 p []
    simp [yo__fan_triples]
  | cons tk rest' ih =>
    intro t vi0 vh vt e p ht
    show (yo__f_tri_loop ov rest' (t + 1) (if t = 1 then _ else vi0)
        (yo__parse_vert tk vh ov).2 _
        (if 3 < t then (e ++ [p]) ++ [(if t = 1 then _ else vi0),
            (e ++ [p]).getLastD 0, (yo__parse_vert tk vh ov).1.vid]
          else (e ++ [p]) ++ [(yo__parse_vert tk vh ov).1.vid])).2.2 = _
    rw [if_pos ht, if_neg (by omega : ¬ t = 1), List.getLastD_concat]
    have hregroup : (e ++ [p]) ++ [vi0, p, (yo__parse_vert tk vh ov).1.vid]
        = (e ++ [p, vi0, p]) ++ [(yo__parse_vert tk vh ov).1.vid] := by
      simp
    rw [hregroup]
    rw [ih (t + 1) vi0 (yo__parse_vert tk vh ov).2
      (yo__add_shape_vert vt (yo__parse_vert tk vh ov).1 ov)
      (e ++ [p, vi0, p]) (yo__parse_vert tk vh ov).1.vid (by omega)]
    show _ = e ++ [p] ++ (vi0 :: p :: (yo__parse_vert tk vh ov).1.vid ::
      yo__fan_triples vi0 (yo__parse_vert tk vh ov).1.vid
        (yo__vids_of ov (yo__parse_vert tk vh ov).2 rest'))
    simp

lemma yo__f_tri_loop_shape (ov : yo__vertdata) (ts : List yo__tok)
    (vh : yo__vhash) (vt : yo__vertdata) (el : List Int) (h3 : 3 ≤ ts.length) :
    ∃ w1 tris, (yo__f_tri_loop ov ts 1 0 vh vt el).2.2 = el ++ tris ∧
      tris.length = 3 * (ts.length - 2) ∧
      (∀ k, k < ts.length - 2 → tris.get? (3 * k) = some w1) ∧
      (∀ t1 trest, ts = t1 :: trest → w1 = (yo__parse_vert t1 vh ov).1.vid) := by
  rcases ts with _ | ⟨t1, _ | ⟨t2, _ | ⟨t3, rest⟩⟩⟩
  · simp at h3
  · simp at h3
  · simp at h3
  · refine ⟨(yo__parse_vert t1 vh ov).1.vid,
      [(yo__parse_vert t1 vh ov).1.vid,
       (yo__parse_vert t2 (yo__parse_vert t1 vh ov).2 ov).1.vid,
       (yo__parse_vert t3 (yo__parse_vert t2 (yo__parse_vert t1 vh ov).2 ov).2 ov).1.vid]
      ++ yo__fan_triples (yo__parse_vert t1 vh ov).1.vid
         (yo__parse_vert t3 (yo__parse_vert t2 (yo__parse_vert t1 vh ov).2 ov).2 ov).1.vid
         (yo__vids_of ov
           (yo__parse_vert t3 (yo__parse_vert t2 (yo__parse_vert t1 vh ov).2 ov).2 ov).2
           rest),
      ?_, ?_, ?_, ?_⟩
    · show (yo__f_tri_loop ov rest 4
          (yo__parse_vert t1 vh ov).1.vid
          (yo__parse_vert t3 (yo__parse_vert t2 (yo__parse_vert t1 vh ov).2 ov).2 ov).2
          (yo__add_shape_vert
            (yo__add_shape_vert
              (yo__add_shape_vert vt (yo__parse_vert t1 vh ov).1 ov)
              (yo__parse_vert t2 (yo__parse_vert t1 vh ov).2 ov).1 ov)
            (yo__parse_vert t3 (yo__parse_vert t2 (yo__parse_vert t1 vh ov).2 ov).2 ov).1 ov)
          (((el ++ [(yo__parse_vert t1 vh ov).1.vid])
            ++ [(yo__parse_vert t2 (yo__parse_vert t1 vh ov).2 ov).1.vid])
            ++ [(yo__parse_vert t3 (yo__parse_vert t2 (yo__parse_vert t1 vh ov).2 ov).2 ov).1.vid])).2.2
        = _
      rw [yo__f_tri_loop_fan ov rest 4 (yo__parse_vert t1 vh ov).1.vid
        (yo__parse_vert t3 (yo__parse_vert t2 (yo__parse_vert t1 vh ov).2 ov).2 ov).2
        (yo__add_shape_vert
          (yo__add_shape_vert
            (yo__add_shape_vert vt (yo__parse_vert t1 vh ov).1 ov)
            (yo__parse_vert t2 (yo__parse_vert t1 vh ov).2 ov).1 ov)
          (yo__parse_vert t3 (yo__parse_vert t2 (yo__parse_vert t1 vh ov).2 ov).2 ov).1 ov)
        ((el ++ [(yo__parse_vert t1 vh ov).1.vid])
          ++ [(yo__parse_vert t2 (yo__parse_vert t1 vh ov).2 ov).1.vid])
        (yo__parse_vert t3 (yo__parse_vert t2 (yo__parse_vert t1 vh ov).2 ov).2 ov).1.vid
        (by omega)]
      simp
    · simp [yo__fan_triples_length, yo__vids_of_length]
      omega
    · intro k hk
      cases k with
      | zero => rfl
      | succ k' =>
        have h3k : 3 * (k' + 1) = 3 * k' + 3 := by omega
        rw [h3k, List.get?_append_right (by simp)]
        simp only [List.length_cons, List.length_nil]
        have : 3 * k' + 3 - 3 = 3 * k' := by omega
        rw [this]
        apply yo__fan_triples_get
        rw [yo__vids_of_length]
        simp only [List.length_cons] at hk
        omega
    · intro t1' trest' heq
      injection heq with h1 _
      subst h1
      rfl

lemma yo__flush_if_elem {etype : Int} {s s1 : yo__loadstate}
    (hf : yo__flush_if_netype etype s = some s1) :
    s1.elem.elem = (if s.elem.etype = etype then s.elem.elem else []) := by
  unfold yo__flush_if_netype at hf
  split_ifs at hf with h
  · rw [if_neg h]
    exact yo__flush_elem_nil hf
  · injection hf with hf
    subst hf
    rw [if_pos (not_not.mp h)]

/-- Claim C4: a face record with `N >= 3` vertices processed by the
triangulating loader appends exactly `N - 2` triangles to the (possibly
freshly flushed) element buffer, each triangle starting with the local id
of the record's first vertex; and the quad `f 1 2 3 4` yields exactly the
two element triples `[0, 1, 2]` and `[0, 2, 3]`. -/
theorem claim_C4_fan_triangulation :
    (∀ (ext : Bool) (s s' : yo__loadstate) (ts : List yo__tok),
      yo__process1 true ext s (yo__record.f ts) = some s' →
      3 ≤ ts.length →
      s'.elem.etype = yo_etype_triangle ∧
      ∃ s1 w1 tris,
        yo__flush_if_netype yo_etype_triangle s = some s1 ∧
        s1.elem.elem = (if s.elem.etype = yo_etype_triangle then s.elem.elem else []) ∧
        s'.elem.elem = s1.elem.elem ++ tris ∧
        tris.length = 3 * (ts.length - 2) ∧
        (∀ k, k < ts.length - 2 → tris.get? (3 * k) = some w1) ∧
        (∀ t1 trest, ts = t1 :: trest →
          w1 = (yo__parse_vert t1 s1.vhash s1.obj_vert).1.vid)) ∧
    (yo_load_obj yo__c4_records true false = some yo__c4_scene ∧
      yo__c4_scene.shapes.map yo_shape.etype = [yo_etype_triangle] ∧
      yo__c4_scene.shapes.map yo_shape.nelems = [2] ∧
      yo__c4_scene.shapes.map yo_shape.nverts = [4] ∧
      yo__c4_scene.shapes.map yo_shape.elem = [[0, 1, 2, 0, 2, 3]]) := by
  constructor
  · intro ext s s' ts hp h3
    simp only [yo__process1, if_true] at hp
    cases hfi : yo__flush_if_netype yo_etype_triangle s with
    | none => rw [hfi] at hp; simp at hp
    | some s1 =>
      rw [hfi] at hp
      injection hp with hp
      subst hp
      refine ⟨rfl, ?_⟩
      obtain ⟨w1, tris, h1, h2, hget, hfirst⟩ :=
        yo__f_tri_loop_shape s1.obj_vert ts s1.vhash s1.vert s1.elem.elem h3
      refine ⟨s1, w1, tris, rfl, yo__flush_if_elem hfi, ?_, h2, hget, hfirst⟩
      show (yo__f_tri_loop s1.obj_vert ts 1 0 s1.vhash s1.vert s1.elem.elem).2.2
        = s1.elem.elem ++ tris
      exact h1
  · exact ⟨rfl, rfl, rfl, rfl, rfl⟩

/-- Witness for claim C4 at the quad face record: after the face record of
the quad scenario the pending element type is triangle, and the general
statement instantiates with its hypotheses discharged. -/
theorem claim_C4_witness :
    yo__c4_spost.elem.etype = yo_etype_triangle :=
  (claim_C4_fan_triangulation.1 false yo__c4_spre yo__c4_spost
    [[1], [2], [3], [4]] rfl (by decide)).1

lemma yo__first_occs_append {α : Type} [DecidableEq α] (l1 l2 : List α) :
    yo__first_occs (l1 ++ l2)
      = l2.foldl (fun acc x => if x ∈ acc then acc else acc ++ [x])
          (yo__first_occs l1) := by
  unfold yo__first_occs
  exact List.foldl_append _ _ _ _

lemma yo__first_occs_snoc {α : Type} [DecidableEq α] (l : List α) (x : α) :
    yo__first_occs (l ++ [x])
      = if x ∈ yo__first_occs l then yo__first_occs l
        else yo__first_occs l ++ [x] := by
  rw [yo__first_occs_append]
  rfl

lemma yo__foldl_occs_extends {α : Type} [DecidableEq α] :
    ∀ (l : List α) (acc : List α),
      ∃ ext, l.foldl (fun acc x => if x ∈ acc then acc else acc ++ [x]) acc
        = acc ++ ext := by
  intro l
  induction l with
  | nil => intro acc; exact ⟨[], by simp⟩
  | cons x l' ih =>
    intro acc
    show ∃ ext, l'.foldl _ (if x ∈ acc then acc else acc ++ [x]) = acc ++ ext
    by_cases hx : x ∈ acc
    · rw [if_pos hx]
      exact ih acc
    · rw [if_neg hx]
      obtain ⟨ext, hext⟩ := ih (acc ++ [x])
      exact ⟨[x] ++ ext, by rw [hext]; simp⟩

lemma yo__mem_foldl_occs {α : Type} [DecidableEq α] :
    ∀ (l : List α) (acc : List α) (y : α),
      y ∈ l.foldl (fun acc x => if x ∈ acc then acc else acc ++ [x]) acc
        ↔ y ∈ acc ∨ y ∈ l := by
  intro l
  induction l with
  | nil => intro acc y; simp
  | cons x l' ih =>
    intro acc y
    show y ∈ l'.foldl _ (if x ∈ acc then acc else acc ++ [x]) ↔ _
    rw [ih]
    by_cases hx : x ∈ acc
    · rw [if_pos hx]
      constructor
      · rintro (h | h)
        · exact Or.inl h
        · exact Or.inr (List.mem_cons_of_mem _ h)
      · rintro (h | h)
        · exact Or.inl h
        · rcases List.mem_cons.mp h with h | h
          · subst h; exact Or.inl hx
          · exact Or.inr h
    · rw [if_neg hx]
      simp only [List.mem_append, List.mem_singleton, List.mem_cons]
      tauto

lemma yo__mem_first_occs {α : Type} [DecidableEq α] (y : α) (l : List α) :
    y ∈ yo__first_occs l ↔ y ∈ l := by
  unfold yo__first_occs
  rw [yo__mem_foldl_occs]
  simp

lemma yo__foldl_occs_nodup {α : Type} [DecidableEq α] :
    ∀ (l : List α) (acc : List α), acc.Nodup →
      (l.foldl (fun acc x => if x ∈ acc then acc else acc ++ [x]) acc).Nodup := by
  intro l
  induction l with
  | nil => intro acc h; exact h
  | cons x l' ih =>
    intro acc hacc
    show (l'.foldl (fun acc x => if x ∈ acc then acc else acc ++ [x])
      (if x ∈ acc then acc else acc ++ [x])).Nodup
    by_cases hx : x ∈ acc
    · rw [if_pos hx]
      exact ih acc hacc
    · rw [if_neg hx]
      refine ih (acc ++ [x]) ?_
      simp [List.nodup_append, hacc, hx]

lemma yo__first_occs_nodup {α : Type} [DecidableEq α] (l : List α) :
    (yo__first_occs l).Nodup :=
  yo__foldl_occs_nodup l [] List.nodup_nil

lemma yo__idx_of_append_mem {α : Type} [DecidableEq α] {x : α} :
    ∀ {l1 : List α} (l2 : List α), x ∈ l1 →
      yo__idx_of (l1 ++ l2) x = yo__idx_of l1 x := by
  intro l1
  induction l1 with
  | nil => intro l2 h; cases h
  | cons w ws ih =>
    intro l2 h
    show (if w = x then 0 else yo__idx_of (ws ++ l2) x + 1)
      = (if w = x then 0 else yo__idx_of ws x + 1)
    by_cases hw : w = x
    · rw [if_pos hw, if_pos hw]
    · rw [if_neg hw, if_neg hw,
        ih l2 (by rcases List.mem_cons.mp h with h | h; exact absurd h.symm hw; exact h)]

lemma yo__idx_of_concat_self {α : Type} [DecidableEq α] {x : α} :
    ∀ {l : List α}, x ∉ l → yo__idx_of (l ++ [x]) x = l.length := by
  intro l
  induction l with
  | nil => intro _; simp [yo__idx_of]
  | cons w ws ih =>
    intro h
    show (if w = x then 0 else yo__idx_of (ws ++ [x]) x + 1) = ws.length + 1
    rw [if_neg (fun hw => h (by rw [hw]; exact List.mem_cons_self x ws)),
      ih (fun hx => h (List.mem_cons_of_mem _ hx))]

lemma yo__idx_of_lt_length {α : Type} [DecidableEq α] {x : α} :
    ∀ {l : List α}, x ∈ l → yo__idx_of l x < l.length := by
  intro l
  induction l with
  | nil => intro h; cases h
  | cons w ws ih =>
    intro h
    show (if w = x then 0 else yo__idx_of ws x + 1) < ws.length + 1
    by_cases hw : w = x
    · rw [if_pos hw]; omega
    · rw [if_neg hw]
      have := ih (by rcases List.mem_cons.mp h with h | h; exact absurd h.symm hw; exact h)
      omega

lemma yo__get?_idx_of {α : Type} [DecidableEq α] {x : α} :
    ∀ {l : List α}, x ∈ l → l.get? (yo__idx_of l x) = some x := by
  intro l
  induction l with
  | nil => intro h; cases h
  | cons w ws ih =>
    intro h
    by_cases hw : w = x
    · have hidx : yo__idx_of (w :: ws) x = 0 := by
        show (if w = x then 0 else _) = 0
        rw [if_pos hw]
      rw [hidx]
      simp [hw]
    · have hidx : yo__idx_of (w :: ws) x = yo__idx_of ws x + 1 := by
        show (if w = x then 0 else yo__idx_of ws x + 1) = _
        rw [if_neg hw]
      rw [hidx, List.get?_cons_succ]
      exact ih (by rcases List.mem_cons.mp h with h | h; exact absurd h.symm hw; exact h)

lemma yo__idx_of_of_get? {α : Type} [DecidableEq α] {x : α} :
    ∀ {l : List α} {i : Nat}, l.Nodup → l.get? i = some x → yo__idx_of l x = i := by
  intro l
  induction l with
  | nil => intro i _ h; simp at h
  | cons w ws ih =>
    intro i hnd h
    cases i with
    | zero =>
      simp only [List.get?] at h
      injection h with h
      subst h
      show (if w = w then 0 else _) = 0
      rw [if_pos rfl]
    | succ i' =>
      rw [List.get?_cons_succ] at h
      have hx : x ∈ ws := List.get?_mem h
      have hw : w ≠ x := by
        intro hw
        subst hw
        exact (List.nodup_cons.mp hnd).1 hx
      show (if w = x then 0 else yo__idx_of ws x + 1) = i' + 1
      rw [if_neg hw, ih (List.nodup_cons.mp hnd).2 h]

lemma yo__find?_unique {α : Type} {p : α → Bool} {w : α} :
    ∀ {l : List α}, w ∈ l → p w = true → (∀ u ∈ l, p u = true → u = w) →
      l.find? p = some w := by
  intro l
  induction l with
  | nil => intro h; cases h
  | cons a t ih =>
    intro hw hpw huniq
    by_cases hpa : p a = true
    · rw [List.find?_cons_of_pos _ hpa, huniq a (List.mem_cons_self a t) hpa]
    · rw [List.find?_cons_of_neg _ (by simpa using hpa)]
      have hwt : w ∈ t := by
        rcases List.mem_cons.mp hw with h | h
        · subst h; exact absurd hpw hpa
        · exact h
      exact ih hwt hpw (fun u hu hpu => huniq u (List.mem_cons_of_mem _ hu) hpu)

lemma yo__resolve_tok_vid (ov : yo__vertdata) (tk : yo__tok) :
    (yo__resolve_tok ov tk).vid = 0 := rfl

lemma yo__parse_vert_eq_found {tk : yo__tok} {vh : yo__vhash} {ov : yo__vertdata}
    {w : yo__vert}
    (hfind : (vh.v (Int.tmod (yo__resolve_tok ov tk).pos yo__vhash_size)).find?
      (fun u => yo__vert_match (yo__resolve_tok ov tk) u) = some w) :
    yo__parse_vert tk vh ov = (w, vh) := by
  simp only [yo__parse_vert]
  rw [hfind]

lemma yo__parse_vert_eq_none {tk : yo__tok} {vh : yo__vhash} {ov : yo__vertdata}
    (hfind : (vh.v (Int.tmod (yo__resolve_tok ov tk).pos yo__vhash_size)).find?
      (fun u => yo__vert_match (yo__resolve_tok ov tk) u) = none) :
    yo__parse_vert tk vh ov
      = ({ yo__resolve_tok ov tk with vid := (vh.nverts : Int) },
         { nverts := vh.nverts + 1
           v := fun k =>
             if k = Int.tmod (yo__resolve_tok ov tk).pos yo__vhash_size then
               vh.v (Int.tmod (yo__resolve_tok ov tk).pos yo__vhash_size)
                 ++ [{ yo__resolve_tok ov tk with vid := (vh.nverts : Int) }]
             else vh.v k }) := by
  simp only [yo__parse_vert]
  rw [hfind]

lemma yo__vert_match_iff {τ τ' : yo__vert} (h0 : τ.vid = 0) (h0' : τ'.vid = 0)
    {j : Int} :
    yo__vert_match τ { τ' with vid := j } = true ↔ τ = τ' := by
  simp only [yo__vert_match, Bool.and_eq_true, beq_iff_eq]
  constructor
  · rintro ⟨⟨⟨⟨h1, h2⟩, h3⟩, h4⟩, h5⟩
    cases τ
    cases τ'
    simp_all
  · rintro rfl
    exact ⟨⟨⟨⟨rfl, rfl⟩, rfl⟩, rfl⟩, rfl⟩

lemma yo__dedup_step (ov : yo__vertdata) (done : List yo__vert) (vh : yo__vhash)
    (vt : yo__vertdata) (tk : yo__tok)
    (hvid : ∀ u ∈ done, u.vid = 0)
    (hinv : yo__dedup_inv ov done vh vt)
    (hτpos : 0 ≤ (yo__resolve_tok ov tk).pos) :
    (yo__parse_vert tk vh ov).1
      = { yo__resolve_tok ov tk with
          vid := ((yo__idx_of (yo__first_occs (done ++ [yo__resolve_tok ov tk]))
            (yo__resolve_tok ov tk) : Nat) : Int) } ∧
    yo__dedup_inv ov (done ++ [yo__resolve_tok ov tk])
      (yo__parse_vert tk vh ov).2
      (yo__add_shape_vert vt (yo__parse_vert tk vh ov).1 ov) := by
  obtain ⟨hnv, hbuck, hvpos, hvtex, hvnorm, hvcol, hvrad⟩ := hinv
  by_cases hmem : yo__resolve_tok ov tk ∈ yo__first_occs done
  · -- the quintuplet was seen before: lookup hits
    have hget := yo__get?_idx_of hmem
    have hilt := yo__idx_of_lt_length hmem
    have hwmem : ({ yo__resolve_tok ov tk with
        vid := ((yo__idx_of (yo__first_occs done) (yo__resolve_tok ov tk) : Nat) : Int) }
          : yo__vert)
        ∈ vh.v (Int.tmod (yo__resolve_tok ov tk).pos yo__vhash_size) :=
      (hbuck _ _).mpr ⟨yo__idx_of (yo__first_occs done) (yo__resolve_tok ov tk),
        yo__resolve_tok ov tk, hget, rfl, rfl⟩
    have hpw : yo__vert_match (yo__resolve_tok ov tk)
        { yo__resolve_tok ov tk with
          vid := ((yo__idx_of (yo__first_occs done) (yo__resolve_tok ov tk) : Nat) : Int) }
          = true :=
      (yo__vert_match_iff rfl rfl).mpr rfl
    have hupw : ∀ u ∈ vh.v (Int.tmod (yo__resolve_tok ov tk).pos yo__vhash_size),
        yo__vert_match (yo__resolve_tok ov tk) u = true →
        u = { yo__resolve_tok ov tk with
          vid := ((yo__idx_of (yo__first_occs done) (yo__resolve_tok ov tk) : Nat) : Int) } := by
      intro u hu hmu
      obtain ⟨j, τ', hget', hueq, hk⟩ := (hbuck _ u).mp hu
      subst hueq
      have hτ'mem : τ' ∈ done :=
        (yo__mem_first_occs τ' done).mp (List.get?_mem hget')
      have hττ' : yo__resolve_tok ov tk = τ' :=
        (yo__vert_match_iff rfl (hvid τ' hτ'mem)).mp hmu
      rw [← hττ'] at hget'
      rw [yo__idx_of_of_get? (yo__first_occs_nodup done) hget']
      rw [← hττ']
    have hfind := yo__find?_unique hwmem hpw hupw
    have hpv := yo__parse_vert_eq_found hfind
    have hfo : yo__first_occs (done ++ [yo__resolve_tok ov tk]) = yo__first_occs done := by
      rw [yo__first_occs_snoc, if_pos hmem]
    have hguard : ((yo__idx_of (yo__first_occs done) (yo__resolve_tok ov tk) : Nat) : Int)
        < (vt.pos.length : Int) := by
      rw [hvpos, List.length_map]
      exact_mod_cast hilt
    have hadd : yo__add_shape_vert vt (yo__parse_vert tk vh ov).1 ov = vt := by
      rw [hpv]
      unfold yo__add_shape_vert
      rw [if_pos hguard]
    constructor
    · rw [hpv, hfo]
    · unfold yo__dedup_inv
      rw [hfo, hadd, hpv]
      exact ⟨hnv, hbuck, hvpos, hvtex, hvnorm, hvcol, hvrad⟩
  · -- fresh quintuplet: lookup misses and inserts
    have hfind : (vh.v (Int.tmod (yo__resolve_tok ov tk).pos yo__vhash_size)).find?
        (fun u => yo__vert_match (yo__resolve_tok ov tk) u) = none := by
      rw [List.find?_eq_none]
      intro u hu hmu
      obtain ⟨j, τ', hget', hueq, hk⟩ := (hbuck _ u).mp hu
      subst hueq
      have hτ'mem : τ' ∈ done :=
        (yo__mem_first_occs τ' done).mp (List.get?_mem hget')
      have hττ' : yo__resolve_tok ov tk = τ' :=
        (yo__vert_match_iff rfl (hvid τ' hτ'mem)).mp hmu
      exact hmem (by rw [hττ']; exact List.get?_mem hget')
    have hpv := yo__parse_vert_eq_none hfind
    rw [hnv] at hpv
    have hfo : yo__first_occs (done ++ [yo__resolve_tok ov tk])
        = yo__first_occs done ++ [yo__resolve_tok ov tk] := by
      rw [yo__first_occs_snoc, if_neg hmem]
    have hidx : yo__idx_of (yo__first_occs done ++ [yo__resolve_tok ov tk])
        (yo__resolve_tok ov tk) = (yo__first_occs done).length :=
      yo__idx_of_concat_self hmem
    have hguard : ¬ ((((yo__first_occs done).length : Nat) : Int) < (vt.pos.length : Int)) := by
      rw [hvpos, List.length_map]
      omega
    constructor
    · rw [hpv, hfo, hidx]
    · unfold yo__dedup_inv
      rw [hfo, hpv]
      refine ⟨?_, ?_, ?_, ?_, ?_, ?_, ?_⟩
      · show (yo__first_occs done).length + 1 = _
        rw [List.length_append]
        rfl
      · intro k w
        show w ∈ (if k = Int.tmod (yo__resolve_tok ov tk).pos yo__vhash_size then
            vh.v (Int.tmod (yo__resolve_tok ov tk).pos yo__vhash_size)
              ++ [{ yo__resolve_tok ov tk with
                    vid := (((yo__first_occs done).length : Nat) : Int) }]
          else vh.v k) ↔ _
        by_cases hk : k = Int.tmod (yo__resolve_tok ov tk).pos yo__vhash_size
        · subst hk
          rw [if_pos rfl]
          constructor
          · intro hw
            rcases List.mem_append.mp hw with hw | hw
            · obtain ⟨j, τ', hgetj, hueq, hkj⟩ := (hbuck _ w).mp hw
              have hjlt : j < (yo__first_occs done).length := by
                obtain ⟨hlt, -⟩ := List.get?_eq_some.mp hgetj
                exact hlt
              exact ⟨j, τ', by rw [List.get?_append hjlt]; exact hgetj, hueq, hkj⟩
            · rw [List.mem_singleton.mp hw]
              exact ⟨(yo__first_occs done).length, yo__resolve_tok ov tk,
                List.get?_concat_length _ _, rfl, rfl⟩
          · rintro ⟨i, τ', hget', hueq, hki⟩
            by_cases hi : i < (yo__first_occs done).length
            · refine List.mem_append_left _ ((hbuck _ w).mpr ⟨i, τ', ?_, hueq, hki⟩)
              rw [List.get?_append hi] at hget'
              exact hget'
            · have hilt : i < ((yo__first_occs done) ++ [yo__resolve_tok ov tk]).length := by
                obtain ⟨hlt, -⟩ := List.get?_eq_some.mp hget'
                exact hlt
              have hieq : i = (yo__first_occs done).length := by
                rw [List.length_append] at hilt
                simp at hilt
                omega
              subst hieq
              rw [List.get?_concat_length] at hget'
              injection hget' with hget'
              subst hget'
              refine List.mem_append_right _ ?_
              rw [hueq]
              exact List.mem_singleton_self _
        · rw [if_neg hk]
          constructor
          · intro hw
            obtain ⟨j, τ', hgetj, hueq, hkj⟩ := (hbuck _ w).mp hw
            have hjlt : j < (yo__first_occs done).length := by
              obtain ⟨hlt, -⟩ := List.get?_eq_some.mp hgetj
              exact hlt
            exact ⟨j, τ', by rw [List.get?_append hjlt]; exact hgetj, hueq, hkj⟩
          · rintro ⟨i, τ', hget', hueq, hki⟩
            by_cases hi : i < (yo__first_occs done).length
            · refine (hbuck _ w).mpr ⟨i, τ', ?_, hueq, hki⟩
              rw [List.get?_append hi] at hget'
              exact hget'
            · have hilt : i < ((yo__first_occs done) ++ [yo__resolve_tok ov tk]).length := by
                obtain ⟨hlt, -⟩ := List.get?_eq_some.mp hget'
                exact hlt
              have hieq : i = (yo__first_occs done).length := by
                rw [List.length_append] at hilt
                simp at hilt
                omega
              subst hieq
              rw [List.get?_concat_length] at hget'
              injection hget' with hget'
              subst hget'
              exact absurd (by rw [hueq] at hki; exact hki.symm) hk
      · show (yo__add_shape_vert vt _ ov).pos = _
        unfold yo__add_shape_vert
        rw [if_neg hguard, hvpos]
        show (if 0 ≤ (yo__resolve_tok ov tk).pos then _ else _) = _
        rw [if_pos hτpos]
        simp
      · show (yo__add_shape_vert vt _ ov).texcoord = _
        unfold yo__add_shape_vert
        rw [if_neg hguard, hvtex, List.filter_append]
        show (if 0 ≤ (yo__resolve_tok ov tk).texcoord then _ else _) = _
        by_cases ht : 0 ≤ (yo__resolve_tok ov tk).texcoord <;> simp [ht]
      · show (yo__add_shape_vert vt _ ov).norm = _
        unfold yo__add_shape_vert
        rw [if_neg hguard, hvnorm, List.filter_append]
        show (if 0 ≤ (yo__resolve_tok ov tk).norm then _ else _) = _
        by_cases ht : 0 ≤ (yo__resolve_tok ov tk).norm <;> simp [ht]
      · show (yo__add_shape_vert vt _ ov).color = _
        unfold yo__add_shape_vert
        rw [if_neg hguard, hvcol, List.filter_append]
        show (if 0 ≤ (yo__resolve_tok ov tk).color then _ else _) = _
        by_cases ht : 0 ≤ (yo__resolve_tok ov tk).color <;> simp [ht]
      · show (yo__add_shape_vert vt _ ov).radius = _
        unfold yo__add_shape_vert
        rw [if_neg hguard, hvrad, List.filter_append]
        show (if 0 ≤ (yo__resolve_tok ov tk).radius then _ else _) = _
        by_cases ht : 0 ≤ (yo__resolve_tok ov tk).radius <;> simp [ht]

lemma yo__first_occs_extends {α : Type} [DecidableEq α] (l1 l2 : List α) :
    ∃ ext, yo__first_occs (l1 ++ l2) = yo__first_occs l1 ++ ext := by
  rw [yo__first_occs_append]
  exact yo__foldl_occs_extends l2 (yo__first_occs l1)

lemma yo__dedup_inv_init (ov : yo__vertdata) :
    yo__dedup_inv ov [] yo__vhash_empty yo__vertdata_empty := by
  refine ⟨rfl, ?_, rfl, rfl, rfl, rfl, rfl⟩
  intro k w
  constructor
  · intro h
    cases h
  · rintro ⟨i, τ, hget, -, -⟩
    simp [yo__first_occs] at hget

lemma yo__verts_loop_dedup (ov : yo__vertdata) :
    ∀ (ts : List yo__tok) (done : List yo__vert) (vh : yo__vhash)
      (vt : yo__vertdata) (el : List Int),
      (∀ u ∈ done, u.vid = 0) →
      yo__dedup_inv ov done vh vt →
      (∀ tk ∈ ts, 0 ≤ (yo__resolve_tok ov tk).pos) →
      (yo__verts_loop ov ts vh vt el).2.2
          = el ++ ts.map (fun tk =>
              ((yo__idx_of
                (yo__first_occs (done ++ ts.map (fun tk => yo__resolve_tok ov tk)))
                (yo__resolve_tok ov tk) : Nat) : Int)) ∧
      yo__dedup_inv ov (done ++ ts.map (fun tk => yo__resolve_tok ov tk))
        (yo__verts_loop ov ts vh vt el).1 (yo__verts_loop ov ts vh vt el).2.1 := by
  intro ts
  induction ts with
  | nil =>
    intro done vh vt el _ hinv _
    exact ⟨by simp [yo__verts_loop], by simpa using hinv⟩
  | cons tk rest ih =>
    intro done vh vt el hvid hinv hpos
    obtain ⟨hid, hinv'⟩ := yo__dedup_step ov done vh vt tk hvid hinv
      (hpos tk (List.mem_cons_self tk rest))
    have hvid' : ∀ u ∈ done ++ [yo__resolve_tok ov tk], u.vid = 0 := by
      intro u hu
      rcases List.mem_append.mp hu with hu | hu
      · exact hvid u hu
      · rw [List.mem_singleton.mp hu]
        rfl
    have hpos' : ∀ t ∈ rest, 0 ≤ (yo__resolve_tok ov t).pos :=
      fun t ht => hpos t (List.mem_cons_of_mem _ ht)
    obtain ⟨hel, hinvR⟩ := ih (done ++ [yo__resolve_tok ov tk])
      (yo__parse_vert tk vh ov).2
      (yo__add_shape_vert vt (yo__parse_vert tk vh ov).1 ov)
      (el ++ [(yo__parse_vert tk vh ov).1.vid]) hvid' hinv' hpos'
    have hloop : yo__verts_loop ov (tk :: rest) vh vt el
        = yo__verts_loop ov rest (yo__parse_vert tk vh ov).2
            (yo__add_shape_vert vt (yo__parse_vert tk vh ov).1 ov)
            (el ++ [(yo__parse_vert tk vh ov).1.vid]) := rfl
    have hassoc : done ++ (tk :: rest).map (fun tk => yo__resolve_tok ov tk)
        = (done ++ [yo__resolve_tok ov tk])
            ++ rest.map (fun tk => yo__resolve_tok ov tk) := by
      simp
    obtain ⟨ext, hext⟩ := yo__first_occs_extends
      (done ++ [yo__resolve_tok ov tk])
      (rest.map (fun tk => yo__resolve_tok ov tk))
    have hmemτ : yo__resolve_tok ov tk
        ∈ yo__first_occs (done ++ [yo__resolve_tok ov tk]) :=
      (yo__mem_first_occs _ _).mpr
        (List.mem_append_right _ (List.mem_singleton_self _))
    have hstable : yo__idx_of
        (yo__first_occs ((done ++ [yo__resolve_tok ov tk])
          ++ rest.map (fun tk => yo__resolve_tok ov tk)))
        (yo__resolve_tok ov tk)
        = yo__idx_of (yo__first_occs (done ++ [yo__resolve_tok ov tk]))
            (yo__resolve_tok ov tk) := by
      rw [hext]
      exact yo__idx_of_append_mem ext hmemτ
    have hvid1 : (yo__parse_vert tk vh ov).1.vid
        = ((yo__idx_of (yo__first_occs (done ++ [yo__resolve_tok ov tk]))
            (yo__resolve_tok ov tk) : Nat) : Int) := by
      rw [hid]
    constructor
    · rw [hassoc, hloop, hel, List.map_cons, hvid1, ← hstable]
      simp
    · rw [hassoc, hloop]
      exact hinvR

/-- **C1** (corrected): vertex deduplication of `yo__parse_vert` and
`yo__add_shape_vert`, restricted to references whose resolved position
index is nonnegative; without that restriction the claim fails, see the
counterexample. Running the per-shape vertex loop from the empty dedup
state over a token list: every element id is the insertion index of the
first occurrence of the token's resolved attribute 5-tuple (so ids are
assigned in insertion order, monotonically from 0, and two references
resolving to the same tuple always receive the same local id), the
first-occurrence list has no duplicates, the vertex count is its length,
and every vertex array lists, in insertion order, exactly one entry per
distinct tuple whose component is present. -/
theorem claim_C1_vertex_deduplication (ov : yo__vertdata) (ts : List yo__tok)
    (hpos : ∀ tk ∈ ts, 0 ≤ (yo__resolve_tok ov tk).pos) :
    (yo__verts_loop ov ts yo__vhash_empty yo__vertdata_empty []).2.2
        = ts.map (fun tk =>
            ((yo__idx_of
              (yo__first_occs (ts.map (fun tk => yo__resolve_tok ov tk)))
              (yo__resolve_tok ov tk) : Nat) : Int)) ∧
    (yo__first_occs (ts.map (fun tk => yo__resolve_tok ov tk))).Nodup ∧
    (yo__verts_loop ov ts yo__vhash_empty yo__vertdata_empty []).1.nverts
        = (yo__first_occs (ts.map (fun tk => yo__resolve_tok ov tk))).length ∧
    (yo__verts_loop ov ts yo__vhash_empty yo__vertdata_empty []).2.1.pos
        = (yo__first_occs (ts.map (fun tk => yo__resolve_tok ov tk))).map
            (fun τ => ov.pos.getD τ.pos.toNat (0, 0, 0)) ∧
    (yo__verts_loop ov ts yo__vhash_empty yo__vertdata_empty []).2.1.texcoord
        = ((yo__first_occs (ts.map (fun tk => yo__resolve_tok ov tk))).filter
            (fun τ => decide (0 ≤ τ.texcoord))).map
            (fun τ => ov.texcoord.getD τ.texcoord.toNat (0, 0)) ∧
    (yo__verts_loop ov ts yo__vhash_empty yo__vertdata_empty []).2.1.norm
        = ((yo__first_occs (ts.map (fun tk => yo__resolve_tok ov tk))).filter
            (fun τ => decide (0 ≤ τ.norm))).map
            (fun τ => ov.norm.getD τ.norm.toNat (0, 0, 0)) ∧
    (yo__verts_loop ov ts yo__vhash_empty yo__vertdata_empty []).2.1.color
        = ((yo__first_occs (ts.map (fun tk => yo__resolve_tok ov tk))).filter
            (fun τ => decide (0 ≤ τ.color))).map
            (fun τ => ov.color.getD τ.color.toNat (0, 0, 0)) ∧
    (yo__verts_loop ov ts yo__vhash_empty yo__vertdata_empty []).2.1.radius
        = ((yo__first_occs (ts.map (fun tk => yo__resolve_tok ov tk))).filter
            (fun τ => decide (0 ≤ τ.radius))).map
            (fun τ => ov.radius.getD τ.radius.toNat 0) ∧
    ∀ i j : Nat, i < ts.length → j < ts.length →
      (ts.map (fun tk => yo__resolve_tok ov tk)).get? i
          = (ts.map (fun tk => yo__resolve_tok ov tk)).get? j →
      (yo__verts_loop ov ts yo__vhash_empty yo__vertdata_empty []).2.2.get? i
          = (yo__verts_loop ov ts yo__vhash_empty yo__vertdata_empty []).2.2.get? j := by
  obtain ⟨hel, hinv⟩ := yo__verts_loop_dedup ov ts [] yo__vhash_empty
    yo__vertdata_empty [] (fun u hu => absurd hu (List.not_mem_nil u))
    (yo__dedup_inv_init ov) hpos
  simp only [List.nil_append] at hel hinv
  obtain ⟨hnv, -, hvpos, hvtex, hvnorm, hvcol, hvrad⟩ := hinv
  refine ⟨hel, yo__first_occs_nodup _, hnv, hvpos, hvtex, hvnorm, hvcol, hvrad, ?_⟩
  intro i j hi hj hij
  rw [hel, List.get?_map, List.get?_map]
  rw [List.get?_map, List.get?_map] at hij
  rw [List.get?_eq_get hi, List.get?_eq_get hj] at hij ⊢
  simp only [Option.map_some'] at hij ⊢
  injection hij with hij
  rw [hij]

/-- Witness for claim C1 at two positions and tokens `1`, `2`, `1`: every
resolved position index is nonnegative, and the emitted element ids are
the first-occurrence indices `0, 1, 0`. -/
theorem claim_C1_witness :
    (yo__verts_loop yo__c1w_ov [[1], [2], [1]] yo__vhash_empty
        yo__vertdata_empty []).2.2
      = ([[1], [2], [1]] : List yo__tok).map (fun tk =>
          ((yo__idx_of
            (yo__first_occs (([[1], [2], [1]] : List yo__tok).map
              (fun tk => yo__resolve_tok yo__c1w_ov tk)))
            (yo__resolve_tok yo__c1w_ov tk) : Nat) : Int)) :=
  (claim_C1_vertex_deduplication yo__c1w_ov [[1], [2], [1]] (by decide)).1

/-- Counterexample to the unrestricted C1 claim: in `yo__c1_records` the
first point's token resolves to position index `-1048576` (hash bucket 0,
nothing materialized), so ids and materialized entries fall out of step;
the later point references the resolved tuple of position 1 twice, both
references get the same id `1`, yet the shape's position array holds two
entries for that tuple instead of exactly one. -/
theorem claim_C1_counterexample :
    yo_load_obj yo__c1_records false false = some yo__c1_scene ∧
    yo__c1_scene.shapes.map yo_shape.elem = [[0, 1, 1]] ∧
    yo__c1_scene.shapes.map (fun s => s.pos) = [[(1, 2, 3), (1, 2, 3)]] ∧
    yo__c1_scene.shapes.map yo_shape.nverts = [2] ∧
    yo__c1_scene.shapes.map
        (fun s => s.pos.count ((1 : Rat), (2 : Rat), (3 : Rat))) = [2] := by
  refine ⟨rfl, rfl, rfl, rfl, ?_⟩
  decide
